import Mathlib

/-!
# Verification of `tec_test`

The definitions of the three programs of the repository come first (`Ex4`, `Ex2`, `Ex3`),
then the theorems about each.

## UART framed-message service (`src/Ex4.c`)

A shallow embedding of `calculate_crc`, `execute_command`, `parse_message` and the body of
the event loop of `uart_event_task`, followed by theorems about them.

Conventions of the embedding.
* A `uint8_t *` buffer is a `List Nat` of byte values; `data[i]` is `data.getD i 0`.
* A C `int` length is an `Int`; a counted `for` loop that runs from `i = a` while `i < b`
  is a structural recursion on the number of remaining iterations `(b - a).toNat`.
* `uint8_t` assignments reduce modulo `256`; `int32_t` arithmetic is two's complement
  (`wrap_int32`).
* Calls to `ESP_LOGI` and to the UART driver are returned as a trace of `effect_t` values.
-/

namespace Ex4

/-! ## Data model -/

/-- The macro `BUF_SIZE`, defined as `(1024)`. -/
def BUF_SIZE : Nat := 1024

/-- The macro `RD_BUF_SIZE`, defined as `(BUF_SIZE)`. -/
def RD_BUF_SIZE : Nat := BUF_SIZE

/-- The struct `protocol_t`. The field `crc` is declared but never assigned by
`parse_message`, so it is `none` (indeterminate) in every message built there. -/
structure protocol_t where
  command : Nat
  payload : Int
  crc : Option Nat
  deriving DecidableEq, Repr

/-- The lines the program hands to `ESP_LOGI`, one constructor per format string, carrying
the formatted arguments. -/
inductive log_t where
  /-- Format "Executando comando A com payload: %d". -/
  | executando_A (payload : Int)
  /-- Format "Executando comando B com payload: %d". -/
  | executando_B (payload : Int)
  /-- Format "Comando desconhecido: %c". -/
  | comando_desconhecido (command : Nat)
  /-- Format "Tamanho da mensagem invalido.". -/
  | tamanho_invalido
  /-- Format "CRC invalido.". -/
  | crc_invalido
  /-- Format "uart[%d] event:". -/
  | uart_event
  /-- Format "[UART DATA]: %d". -/
  | uart_data (size : Nat)
  /-- Format "Overflow do FIFO de hardware". -/
  | fifo_overflow
  /-- Format "Buffer da UART cheio". -/
  | buffer_cheio
  /-- Format "Evento UART desconhecido: %d". -/
  | evento_desconhecido (code : Nat)
  deriving DecidableEq, Repr

/-- The event kinds `uart_event_task` switches on; every other value of the driver's
enumeration is `other code`. -/
inductive uart_event_type_t where
  | UART_DATA
  | UART_FIFO_OVF
  | UART_BUFFER_FULL
  | other (code : Nat)
  deriving DecidableEq, Repr

/-- The driver's `uart_event_t`, restricted to the two fields the task reads. `size` is a
`size_t`. -/
structure uart_event_t where
  type : uart_event_type_t
  size : Nat
  deriving DecidableEq, Repr

/-- What one iteration of the event loop asks of its collaborators: a log line, a read of
`size` bytes from the receiver, a write of the first `size` bytes of `src` to the sink, a
flush of the receiver, a reset of the event queue. -/
inductive effect_t where
  | log (line : log_t)
  | uart_read_bytes (size : Nat)
  | uart_write_bytes (src : List Nat) (size : Nat)
  | uart_flush_input
  | xQueueReset
  deriving DecidableEq, Repr

/-! ## Machine arithmetic -/

/-- Two's complement reduction of an integer to `int32_t`. -/
def wrap_int32 (x : Int) : Int := (x + 2147483648) % 4294967296 - 2147483648

/-- Conversion of a `size_t` (32 bits on the target) to `int`. -/
def size_to_int (n : Nat) : Int := wrap_int32 (n : Int)

/-- The `size_t` subtraction `size - 1`. -/
def size_pred (n : Nat) : Nat := (n + 4294967295) % 4294967296

/-! ## `calculate_crc` (lines 29-43) -/

/-- Line 37: `crc = (crc & 0x80) ? (crc << 1) ^ 0x07 : (crc << 1);` stored in a `uint8_t`. -/
def crc_round (crc : Nat) : Nat :=
  if crc &&& 0x80 ≠ 0 then ((crc <<< 1) ^^^ 0x07) % 256 else (crc <<< 1) % 256

/-- Lines 35-38: `for (int j = 0; j < 8; j++)`, with `n` rounds still to run. -/
def crc_rounds : Nat → Nat → Nat
  | 0, crc => crc
  | n + 1, crc => crc_rounds n (crc_round crc)

/-- Lines 32-39: the loop over `i`, currently at index `i` with `n` iterations still to
run. -/
def crc_loop (data : List Nat) : Nat → Nat → Nat → Nat
  | 0, _, crc => crc
  | n + 1, i, crc => crc_loop data n (i + 1) (crc_rounds 8 ((crc ^^^ data.getD i 0) % 256))

/-- The function `calculate_crc`: the loop runs, then line 40 (`crc = 'F';`) replaces its
result before the `return`. -/
def calculate_crc (data : List Nat) (length : Int) : Nat :=
  let crc : Nat := 0
  let _crc : Nat := crc_loop data length.toNat 0 crc
  let crc : Nat := 70
  crc

/-! ## `execute_command` (lines 46-59) -/

/-- The function `execute_command`: the `switch` on `msg.command`, returning the lines
logged. -/
def execute_command (msg : protocol_t) : List log_t :=
  match msg.command with
  | 65 => [log_t.executando_A msg.payload]
  | 66 => [log_t.executando_B msg.payload]
  | _ => [log_t.comando_desconhecido msg.command]

/-! ## `parse_message` (lines 62-94) -/

/-- Lines 83-86: `for (int i = start; i < length - 1; i++)`, currently at index `i` with
`n` iterations still to run. -/
def payload_loop (data : List Nat) : Nat → Nat → Int → Int
  | 0, _, payload => payload
  | n + 1, i, payload =>
    payload_loop data n (i + 1) (wrap_int32 (payload * 10 + (Int.ofNat (data.getD i 0) - 48)))

/-- Lines 63-92 of `parse_message`: either the line logged before an early `return`, or
the message that line 93 passes to `execute_command`. -/
def parse_message_msg (data : List Nat) (length : Int) : Except log_t protocol_t :=
  if length < 3 then
    Except.error log_t.tamanho_invalido
  else
    let received_crc : Nat := data.getD (length - 1).toNat 0
    if calculate_crc data (length - 1) ≠ received_crc then
      Except.error log_t.crc_invalido
    else
      let start : Nat := if data.getD 1 0 = 45 then 2 else 1
      let payload : Int := payload_loop data (length - 1 - start).toNat start 0
      let payload : Int := if start = 2 then wrap_int32 (-payload) else payload
      Except.ok { command := data.getD 0 0, payload := payload, crc := none }

/-- The function `parse_message`, as the list of lines it logs. -/
def parse_message (data : List Nat) (length : Int) : List log_t :=
  match parse_message_msg data length with
  | Except.error line => [line]
  | Except.ok msg => execute_command msg

/-! ## `uart_event_task` (lines 97-134) -/

/-- Lines 106 and 112: `dtmp` after `bzero` and after `uart_read_bytes` has stored the
`size` received bytes `rx` at its start. -/
def dtmp_after_read (rx : List Nat) (size : Nat) : List Nat :=
  rx.take size ++ (List.replicate RD_BUF_SIZE 0).drop size

/-- Lines 106-130: the body of the loop for one received event; `rx` holds the bytes the
receiver delivers to a read. -/
def uart_event_iteration (event : uart_event_t) (rx : List Nat) : List effect_t :=
  effect_t.log log_t.uart_event ::
  match event.type with
  | uart_event_type_t.UART_DATA =>
    let dtmp := dtmp_after_read rx event.size
    [effect_t.log (log_t.uart_data event.size), effect_t.uart_read_bytes event.size]
      ++ (parse_message dtmp (size_to_int event.size)).map effect_t.log
      ++ [effect_t.uart_write_bytes dtmp (size_pred event.size)]
  | uart_event_type_t.UART_FIFO_OVF =>
    [effect_t.log log_t.fifo_overflow, effect_t.uart_flush_input, effect_t.xQueueReset]
  | uart_event_type_t.UART_BUFFER_FULL =>
    [effect_t.log log_t.buffer_cheio, effect_t.uart_flush_input, effect_t.xQueueReset]
  | uart_event_type_t.other code =>
    [effect_t.log (log_t.evento_desconhecido code)]

/-- Lines 102-132: the loop `for (;;)` run over the events the queue delivers, each paired
with the bytes available to its read. -/
def uart_event_task : List (uart_event_t × List Nat) → List effect_t
  | [] => []
  | (event, rx) :: rest => uart_event_iteration event rx ++ uart_event_task rest

/-- The bytes a write instruction hands to the sink. -/
def bytes_written : effect_t → Option (List Nat)
  | effect_t.uart_write_bytes src size => some (src.take size)
  | _ => none

/-! ## Reference definitions taken from the specification -/

/-- One round of the specification's checksum: "if the high bit of the accumulator is set,
shift left and XOR with 0x07; otherwise shift left", modulo 256. -/
def checksum_spec_round (acc : Nat) : Nat :=
  if acc.testBit 7 then ((2 * acc) ^^^ 7) % 256 else (2 * acc) % 256

/-- The specification's checksum: from accumulator 0, each byte in order is XORed into the
accumulator and 8 rounds are applied. -/
def checksum_spec (bytes : List Nat) : Nat :=
  bytes.foldl (fun acc b => checksum_spec_round^[8] ((acc ^^^ b) % 256)) 0

/-- The number denoted by a string of ASCII decimal digits, most significant digit
first. -/
def decimal_value (digits : List Nat) : Nat :=
  Nat.ofDigits 10 ((digits.map (fun b => b - 48)).reverse)

/-- The command-and-payload portion of a frame of the wire format: the command byte, an
optional leading '-', then the payload bytes. -/
def frame_body (command : Nat) (negative : Bool) (digits : List Nat) : List Nat :=
  command :: ((if negative then [45] else []) ++ digits)

/-- A frame of the wire format: the command-and-payload portion followed by the byte
`calculate_crc` computes over it. -/
def frame_of (body : List Nat) : List Nat :=
  body ++ [calculate_crc body body.length]

/-- Modelled from the spec: the decimal rendering of a natural number as ASCII digits,
most significant digit first, without leading zeros ("0" for zero). The repository has no
encoder; this is the rendering the roundtrip property of the specification refers to. -/
def decimal_rendering (n : Nat) : List Nat :=
  if n = 0 then [48] else (Nat.digits 10 n).reverse.map (fun d => d + 48)

/-- Modelled from the spec: `encode(command, payload)`, "the command byte followed by the
decimal rendering of the signed payload". The repository has no encoder. -/
def encode (command : Nat) (payload : Int) : List Nat :=
  command :: ((if payload < 0 then [45] else []) ++ decimal_rendering payload.natAbs)

/-- The specification's payload accumulation `payload = payload*10 + (bytes[i] - '0')`,
as a left fold over the payload bytes in 32-bit signed arithmetic. -/
def payload_fold_spec (bytes : List Nat) : Int :=
  bytes.foldl (fun payload b => wrap_int32 (payload * 10 + (Int.ofNat b - 48))) 0

end Ex4

/-!
# Debounce state machine (`src/Ex2.c`)

The functions `update_fsm_conditions` and `process_fsm` as functions on `fsm_t` values, and
the loop of `simple_fsm` as a fold over the successive iterations. Each call of
`esp_timer_get_time` is a reading supplied from outside; `printf` and `vTaskDelay` do not
change the `fsm_t` value and are left out.
-/

namespace Ex2

/-- The macro `DEBOUNCE_MS(ms)`, defined as `((ms) * 1000)`. -/
def DEBOUNCE_MS (ms : Nat) : Nat := ms * 1000

/-- The enumeration `state`. The `default:` case of the `switch` in
`update_fsm_conditions` is not reachable for a value of this type. -/
inductive state where
  | OFF
  | ON
  | PROTECTED
  deriving DecidableEq, Repr

/-- The struct `fsm_t`; `condition` is a `uint8_t`, `debounce` and `time_to_transition`
are `uint64_t` microseconds. -/
structure fsm_t where
  state : Ex2.state
  old_state : Ex2.state
  target : Ex2.state
  condition : Nat
  debounce : Nat
  time_to_transition : Nat
  deriving DecidableEq, Repr

/-- The values `esp_timer_get_time` returns to the calls one run of `process_fsm` can
make: at line 57, at line 64, and at line 67 or 72 (only one of the two is executed). -/
structure readings where
  at_entry : Nat
  at_check : Nat
  at_update : Nat
  deriving DecidableEq, Repr

/-- The function `process_fsm` (lines 51-77). The sum of line 64 is a `uint64_t` sum. -/
def process_fsm (this : fsm_t) (now : readings) : fsm_t :=
  let this : fsm_t :=
    if this.old_state ≠ this.state then
      { this with old_state := this.state, time_to_transition := now.at_entry }
    else this
  if this.condition ≠ 0 then
    if now.at_check ≥ (this.time_to_transition + this.debounce) % 18446744073709551616 then
      { this with state := this.target, time_to_transition := now.at_update }
    else this
  else
    { this with time_to_transition := now.at_update }

/-- The function `update_fsm_conditions` (lines 80-108); `gpio_level` is a `uint8_t`. -/
def update_fsm_conditions (fsm : fsm_t) (gpio_level : Nat) : fsm_t :=
  match fsm.state with
  | state.OFF =>
    { fsm with condition := if gpio_level = 0 then 1 else 0,
               debounce := DEBOUNCE_MS 300,
               target := state.ON }
  | state.ON =>
    { fsm with condition := gpio_level,
               debounce := DEBOUNCE_MS 300,
               target := state.PROTECTED }
  | state.PROTECTED =>
    { fsm with condition := 1,
               debounce := DEBOUNCE_MS 10000,
               target := state.OFF }

/-- What one iteration of the loop of `simple_fsm` receives from outside: the level
`gpio_get_level` returns and the timer readings. -/
structure input where
  gpio_level : Nat
  now : readings
  deriving DecidableEq, Repr

/-- Lines 126 and 129: one iteration of the loop of `simple_fsm`. -/
def step (fsm : fsm_t) (x : input) : fsm_t :=
  process_fsm (update_fsm_conditions fsm x.gpio_level) x.now

/-- Line 115: the initial value of `local_fsm`. -/
def local_fsm : fsm_t :=
  { state := state.OFF, old_state := state.OFF, target := state.OFF, condition := 0,
    debounce := DEBOUNCE_MS 300, time_to_transition := 0 }

/-- Lines 117-131: the loop of `simple_fsm` run over the given successive iterations,
starting from `fsm`. -/
def simple_fsm (fsm : fsm_t) (inputs : List input) : fsm_t :=
  inputs.foldl step fsm

/-- The timer readings of a sequence of iterations, in the order they are taken. -/
def timer_readings : List input → List Nat
  | [] => []
  | x :: xs => x.now.at_entry :: x.now.at_check :: x.now.at_update :: timer_readings xs

/-- The debounce time of the state being left: 300 ms for OFF and for ON, 10 s for
PROTECTED, in microseconds. -/
def debounce_of : state → Nat
  | state.OFF => 300000
  | state.ON => 300000
  | state.PROTECTED => 10000000

/-- The successor of a state in the cycle OFF, ON, PROTECTED, OFF. -/
def successor : state → state
  | state.OFF => state.ON
  | state.ON => state.PROTECTED
  | state.PROTECTED => state.OFF

/-- The timer reading at which the first iteration of a sequence starts; 0 for the
empty sequence. -/
def first_entry : List input → Nat
  | [] => 0
  | x :: _ => x.now.at_entry

end Ex2

/-!
# Array statistics (`src/Ex3.c`)

The function `func` and its helper `process_statistic`. The input array is a list of
`int32_t` values (`none` for a null pointer) and `vec[i]` is `vec.getD i 0`. The loop index
is a `uint16_t`, so its increment is taken modulo 65536 and the loop need not end: the loop
is run with a bound on the number of iterations, and `none` means that the bound was
reached. The float `avr` is carried as an exact rational; no theorem below depends on its
value except where it is the zero that `memset` stores.
-/

namespace Ex3

/-- The macro `MIN(a,b)`, defined as `(((a)<(b))?(a):(b))`. -/
def MIN (a b : Int) : Int := if a < b then a else b

/-- The macro `MAX(a,b)`, defined as `(((a)>(b))?(a):(b))`. -/
def MAX (a b : Int) : Int := if a > b then a else b

/-- The macro `MAX_EVEN_ARRAY_SIZE`, defined as `100`. -/
def MAX_EVEN_ARRAY_SIZE : Nat := 100

/-- The struct `statistic`. -/
structure statistic where
  max : Int
  min : Int
  avr : ℚ
  deriving DecidableEq

/-- The unnamed struct of the member `even` of `array_data`: the array of
`MAX_EVEN_ARRAY_SIZE` elements and the counter `qnt_elements` (an `int32_t` that only
takes values from 0 to 100). -/
structure even_t where
  array : List Int
  qnt_elements : Nat
  deriving DecidableEq

/-- The struct `array_data`. -/
structure array_data where
  is_valid : Nat
  raw_array : statistic
  even : even_t
  deriving DecidableEq

/-- The function `process_statistic` (lines 36-44). -/
def process_statistic (data : array_data) (value : Int) : array_data :=
  { data with
    raw_array :=
      { min := MIN data.raw_array.min value
        max := MAX data.raw_array.max value
        avr := data.raw_array.avr + value } }

/-- How the loop of lines 62-83 ends: by `goto exit` or by its condition becoming false,
with the value of `return_value` at that point and, as a record of the run, the indices
passed to `process_statistic` in order. -/
structure loop_result where
  goto_exit : Bool
  return_value : array_data
  processed : List Nat
  deriving DecidableEq

/-- Lines 62-83: the loop `for (uint16_t i = 0; i < size; i++)`, at index `i`, allowed
`fuel` more evaluations of its condition. -/
def func_loop (vec : List Int) (size : Nat) :
    Nat → Nat → array_data → List Nat → Option loop_result
  | 0, _, _, _ => none
  | fuel + 1, i, return_value, processed =>
    if i < size then
      let return_value := process_statistic return_value (vec.getD i 0)
      let processed := processed ++ [i]
      if (vec.getD i 0).tmod 2 = 0 then
        if return_value.even.qnt_elements < MAX_EVEN_ARRAY_SIZE then
          func_loop vec size fuel ((i + 1) % 65536)
            { return_value with
              even :=
                { array := return_value.even.array.set return_value.even.qnt_elements
                    (vec.getD i 0)
                  qnt_elements := return_value.even.qnt_elements + 1 } }
            processed
        else
          some { goto_exit := true
                 return_value := { return_value with is_valid := 0 }
                 processed := processed }
      else
        func_loop vec size fuel ((i + 1) % 65536) return_value processed
    else
      some { goto_exit := false, return_value := return_value, processed := processed }

/-- Line 52: `return_value` after `memset(&return_value, 0x00, sizeof(return_value))`. -/
def return_value_zero : array_data :=
  { is_valid := 0
    raw_array := { max := 0, min := 0, avr := 0 }
    even := { array := List.replicate MAX_EVEN_ARRAY_SIZE 0, qnt_elements := 0 } }

/-- The function `func` (lines 47-98) together with the record of the indices its loop
passed to `process_statistic`; `none` when the loop did not end within `fuel` evaluations
of its condition. -/
def func_trace (vec : Option (List Int)) (size : Nat) (fuel : Nat) :
    Option (array_data × List Nat) :=
  let return_value := return_value_zero
  match vec with
  | some v =>
    if size > 0 then
      let return_value :=
        { return_value with raw_array := { max := v.getD 0 0, min := v.getD 0 0, avr := 0 } }
      match func_loop v size fuel 0 return_value [] with
      | none => none
      | some r =>
        if r.goto_exit then
          some (r.return_value, r.processed)
        else
          some ({ r.return_value with
                  raw_array :=
                    { r.return_value.raw_array with
                      avr := r.return_value.raw_array.avr / size }
                  is_valid := 1 }, r.processed)
    else
      some ({ return_value with is_valid := 0 }, [])
  | none => some ({ return_value with is_valid := 0 }, [])

/-- The function `func`: the value it returns, `none` when its loop did not end within
`fuel` evaluations of its condition. -/
def func (vec : Option (List Int)) (size : Nat) (fuel : Nat) : Option array_data :=
  (func_trace vec size fuel).map Prod.fst

/-- The even elements of an array (the multiples of 2, negative ones included), in their
original order. -/
def even_elements (vec : List Int) : List Int :=
  vec.filter (fun x => x % 2 = 0)

end Ex3

namespace Ex4

/-! ## Helper lemmas -/

theorem calculate_crc_eq (data : List Nat) (length : Int) : calculate_crc data length = 70 := rfl

theorem wrap_int32_of_range (x : Int) (h1 : -2147483648 ≤ x) (h2 : x ≤ 2147483647) :
    wrap_int32 x = x := by
  unfold wrap_int32
  omega

theorem parse_message_msg_short (data : List Nat) (length : Int) (h : length < 3) :
    parse_message_msg data length = Except.error log_t.tamanho_invalido := by
  simp [parse_message_msg, h]

theorem parse_message_msg_bad_crc (data : List Nat) (length : Int) (h : 3 ≤ length)
    (hcrc : data.getD (length - 1).toNat 0 ≠ 70) :
    parse_message_msg data length = Except.error log_t.crc_invalido := by
  have h3 : ¬ length < 3 := by omega
  have hne : calculate_crc data (length - 1) ≠ data.getD (length - 1).toNat 0 := by
    rw [calculate_crc_eq]
    exact fun e => hcrc e.symm
  unfold parse_message_msg
  rw [if_neg h3]
  exact if_pos hne

theorem parse_message_msg_good (data : List Nat) (length : Int) (h : 3 ≤ length)
    (hcrc : data.getD (length - 1).toNat 0 = 70) :
    parse_message_msg data length = Except.ok
      { command := data.getD 0 0
        payload :=
          if data.getD 1 0 = 45 then
            wrap_int32 (-(payload_loop data (length - 1 - 2).toNat 2 0))
          else payload_loop data (length - 1 - 1).toNat 1 0
        crc := none } := by
  have h3 : ¬ length < 3 := by omega
  have hne : ¬ (calculate_crc data (length - 1) ≠ data.getD (length - 1).toNat 0) := by
    rw [calculate_crc_eq, hcrc]
    exact fun e => e rfl
  unfold parse_message_msg
  rw [if_neg h3]
  simp only []
  rw [if_neg hne]
  by_cases hs : data.getD 1 0 = 45
  · simp only [hs, if_true]
    rfl
  · simp only [hs, if_false]
    have : ¬ ((1 : Nat) = 2) := by decide
    simp only [this, if_false]
    rfl

theorem payload_loop_eq_foldl (data : List Nat) (n : Nat) :
    ∀ (i : Nat) (payload : Int), i + n ≤ data.length →
      payload_loop data n i payload =
        ((data.drop i).take n).foldl
          (fun p b => wrap_int32 (p * 10 + (Int.ofNat b - 48))) payload := by
  induction n with
  | zero =>
    intro i payload _
    simp [payload_loop]
  | succ n ih =>
    intro i payload h
    have hi : i < data.length := by omega
    have hd : data.drop i = data[i] :: data.drop (i + 1) := List.drop_eq_getElem_cons hi
    have hg : data.getD i 0 = data[i] := by
      simp [List.getD, List.getElem?_eq_getElem hi]
    rw [payload_loop, ih (i + 1) _ (by omega), hd, hg, List.take_succ_cons, List.foldl_cons]

theorem payload_loop_eq_spec (data : List Nat) (length : Int) (start : Nat)
    (h1 : (start : Int) + 1 ≤ length) (h2 : length ≤ data.length) :
    payload_loop data (length - 1 - start).toNat start 0 =
      payload_fold_spec ((data.take (length - 1).toNat).drop start) := by
  have hlen : start + (length - 1 - start).toNat ≤ data.length := by omega
  rw [payload_loop_eq_foldl data _ start 0 hlen, payload_fold_spec, List.drop_take]
  have : (length - 1).toNat - start = (length - 1 - start).toNat := by omega
  rw [this]

theorem decimal_value_append (digits : List Nat) (b : Nat) :
    decimal_value (digits ++ [b]) = (b - 48) + 10 * decimal_value digits := by
  simp [decimal_value, Nat.ofDigits_cons]

theorem payload_fold_spec_digits (digits : List Nat) :
    (∀ b ∈ digits, 48 ≤ b ∧ b ≤ 57) → decimal_value digits ≤ 2147483647 →
      payload_fold_spec digits = (decimal_value digits : Int) := by
  induction digits using List.reverseRecOn with
  | nil =>
    intro _ _
    simp [payload_fold_spec, decimal_value]
  | append_singleton ds b ih =>
    intro hd hv
    rw [decimal_value_append] at hv
    have hb : 48 ≤ b ∧ b ≤ 57 := hd b (by simp)
    have hds : ∀ x ∈ ds, 48 ≤ x ∧ x ≤ 57 := fun x hx => hd x (by simp [hx])
    have ih1 := ih hds (by omega)
    unfold payload_fold_spec at ih1 ⊢
    rw [List.foldl_append, ih1, decimal_value_append]
    simp only [List.foldl_cons, List.foldl_nil]
    rw [wrap_int32_of_range]
    · simp only [Int.ofNat_eq_coe]
      omega
    · simp only [Int.ofNat_eq_coe]
      omega
    · simp only [Int.ofNat_eq_coe]
      omega

theorem parse_message_msg_fold (data : List Nat) (length : Int) (h : 3 ≤ length)
    (hlen : length ≤ data.length) (hcrc : data.getD (length - 1).toNat 0 = 70) :
    parse_message_msg data length = Except.ok
      { command := data.getD 0 0
        payload :=
          if data.getD 1 0 = 45 then
            wrap_int32 (-(payload_fold_spec ((data.take (length - 1).toNat).drop 2)))
          else payload_fold_spec ((data.take (length - 1).toNat).drop 1)
        crc := none } := by
  rw [parse_message_msg_good data length h hcrc]
  have e2 := payload_loop_eq_spec data length 2 (by omega) hlen
  have e1 := payload_loop_eq_spec data length 1 (by omega) hlen
  simp only [Nat.cast_ofNat, Nat.cast_one] at e1 e2
  rw [e1, e2]

theorem parse_message_of_msg (data : List Nat) (length : Int) (msg : protocol_t)
    (h : parse_message_msg data length = Except.ok msg) :
    parse_message data length = execute_command msg := by
  unfold parse_message
  rw [h]

theorem parse_message_of_error (data : List Nat) (length : Int) (line : log_t)
    (h : parse_message_msg data length = Except.error line) :
    parse_message data length = [line] := by
  unfold parse_message
  rw [h]

theorem crc_round_eq_spec (crc : Nat) : crc_round crc = checksum_spec_round crc := by
  unfold crc_round checksum_spec_round
  have h : crc &&& 0x80 = 2 ^ 7 * (crc.testBit 7).toNat := by
    rw [Nat.and_comm]
    exact Nat.two_pow_and crc 7
  have hs : crc <<< 1 = 2 * crc := by
    rw [Nat.shiftLeft_eq]
    omega
  rw [h, hs]
  cases crc.testBit 7 <;> simp

theorem crc_rounds_eq_iterate (n : Nat) :
    ∀ crc : Nat, crc_rounds n crc = checksum_spec_round^[n] crc := by
  induction n with
  | zero => intro crc; rfl
  | succ n ih =>
    intro crc
    rw [crc_rounds, ih, crc_round_eq_spec, Function.iterate_succ_apply]

theorem crc_loop_eq_foldl (data : List Nat) (n : Nat) :
    ∀ (i crc : Nat), i + n ≤ data.length →
      crc_loop data n i crc =
        ((data.drop i).take n).foldl
          (fun acc b => checksum_spec_round^[8] ((acc ^^^ b) % 256)) crc := by
  induction n with
  | zero =>
    intro i crc _
    simp [crc_loop]
  | succ n ih =>
    intro i crc h
    have hi : i < data.length := by omega
    have hd : data.drop i = data[i] :: data.drop (i + 1) := List.drop_eq_getElem_cons hi
    have hg : data.getD i 0 = data[i] := by
      simp [List.getD, List.getElem?_eq_getElem hi]
    rw [crc_loop, ih (i + 1) _ (by omega), hd, hg, List.take_succ_cons, List.foldl_cons,
      crc_rounds_eq_iterate]

/-- The loop of lines 32-39 computes the specification's CRC-8 of the span; it is line 40
that discards it. -/
theorem crc_loop_eq_checksum_spec (data : List Nat) :
    crc_loop data data.length 0 0 = checksum_spec data := by
  rw [crc_loop_eq_foldl data data.length 0 0 (by omega), checksum_spec]
  simp

theorem frame_of_eq (body : List Nat) : frame_of body = body ++ [70] := rfl

theorem parse_message_msg_frame (command second : Nat) (rest : List Nat) :
    parse_message_msg (frame_of (command :: second :: rest))
        (frame_of (command :: second :: rest)).length = Except.ok
      { command := command
        payload :=
          if second = 45 then wrap_int32 (-(payload_fold_spec rest))
          else payload_fold_spec (second :: rest)
        crc := none } := by
  have hl : (((frame_of (command :: second :: rest)).length : Int) - 1).toNat
      = (command :: second :: rest).length := by
    simp [frame_of_eq]
    omega
  have h := parse_message_msg_fold (frame_of (command :: second :: rest))
    (frame_of (command :: second :: rest)).length
    (by simp [frame_of_eq]; omega) (le_refl _)
    (by rw [hl]; simp [frame_of_eq])
  rw [h, hl]
  simp [frame_of_eq]

theorem filterMap_bytes_written_log (lines : List log_t) :
    (lines.map effect_t.log).filterMap bytes_written = [] := by
  induction lines with
  | nil => rfl
  | cons l ls ih =>
    rw [List.map_cons, List.filterMap_cons]
    simp [bytes_written]

theorem take_dtmp_after_read (rx : List Nat) (size : Nat) (hrx : rx.length = size) :
    (dtmp_after_read rx size).take (size - 1) = rx.take (size - 1) := by
  unfold dtmp_after_read
  have hl : size - 1 ≤ (rx.take size).length := by
    rw [List.length_take, hrx]
    omega
  rw [List.take_append_of_le_length hl, List.take_take]
  have : min (size - 1) size = size - 1 := by omega
  rw [this]

theorem size_pred_eq (size : Nat) (h1 : 1 ≤ size) (h2 : size ≤ RD_BUF_SIZE) :
    size_pred size = size - 1 := by
  unfold size_pred
  have : RD_BUF_SIZE = 1024 := rfl
  omega

theorem size_to_int_eq (size : Nat) (h2 : size ≤ RD_BUF_SIZE) :
    size_to_int size = size := by
  unfold size_to_int
  have : RD_BUF_SIZE = 1024 := rfl
  exact wrap_int32_of_range _ (by omega) (by omega)

theorem parse_message_msg_signed_frame (command : Nat) (negative : Bool) (digits : List Nat)
    (hne : digits ≠ []) (hd : ∀ b ∈ digits, 48 ≤ b ∧ b ≤ 57)
    (hv : decimal_value digits ≤ 2147483647) :
    parse_message_msg (frame_of (frame_body command negative digits))
        (frame_of (frame_body command negative digits)).length = Except.ok
      { command := command
        payload := if negative then -(decimal_value digits : Int) else decimal_value digits
        crc := none } := by
  have hfold := payload_fold_spec_digits digits hd hv
  cases digits with
  | nil => exact absurd rfl hne
  | cons d ds =>
    cases negative with
    | false =>
      have hb : d ≠ 45 := by
        have := hd d (by simp)
        omega
      have e : frame_body command false (d :: ds) = command :: d :: ds := rfl
      rw [e, parse_message_msg_frame, if_neg hb, hfold]
      simp
    | true =>
      have e : frame_body command true (d :: ds) = command :: 45 :: d :: ds := rfl
      rw [e, parse_message_msg_frame, if_pos rfl, hfold,
        wrap_int32_of_range _ (by omega) (by omega)]
      simp

theorem decimal_rendering_value (d : Nat) (ds : List Nat)
    (hd : ∀ b ∈ d :: ds, 48 ≤ b ∧ b ≤ 57) (hcanon : d ≠ 48 ∨ ds = []) :
    decimal_rendering (decimal_value (d :: ds)) = d :: ds := by
  have hback : (d :: ds).map (fun b => b - 48 + 48) = d :: ds := by
    have : ∀ l : List Nat, (∀ b ∈ l, 48 ≤ b ∧ b ≤ 57) → l.map (fun b => b - 48 + 48) = l := by
      intro l hl
      induction l with
      | nil => rfl
      | cons x xs ih =>
        have hx := hl x (by simp)
        rw [List.map_cons, ih (fun b hb => hl b (by simp [hb]))]
        congr 1
        omega
    exact this _ hd
  by_cases h48 : d = 48
  · have hds : ds = [] := by
      rcases hcanon with h | h
      · exact absurd h48 h
      · exact h
    subst h48 hds
    simp [decimal_rendering, decimal_value]
  · have hd0 := hd d (by simp)
    have w1 : ∀ l ∈ ((d :: ds).map (fun b => b - 48)).reverse, l < 10 := by
      intro l hl
      rw [List.mem_reverse, List.mem_map] at hl
      obtain ⟨b, hb, rfl⟩ := hl
      have := hd b hb
      omega
    have w2 : ∀ h : ((d :: ds).map (fun b => b - 48)).reverse ≠ [],
        (((d :: ds).map (fun b => b - 48)).reverse).getLast h ≠ 0 := by
      intro h
      rw [List.getLast_reverse]
      simp only [List.map_cons, List.head_cons]
      omega
    have hdig := Nat.digits_ofDigits 10 (by norm_num) _ w1 w2
    have hnz : decimal_value (d :: ds) ≠ 0 := by
      intro h0
      unfold decimal_value at h0
      rw [h0, Nat.digits_zero] at hdig
      simp at hdig
    unfold decimal_rendering
    rw [if_neg hnz]
    unfold decimal_value
    rw [hdig, List.reverse_reverse, List.map_map]
    exact hback

/-! ## Claims about `calculate_crc` and `parse_message` -/

/-- C1 (defect in the code): the claim says `calculate_crc` returns the CRC-8 of its input,
0 for the empty input. On the empty input the loop of lines 32-39 leaves 0 in the
accumulator and the specification's checksum is 0, yet `calculate_crc` returns 0x46; on the
one-byte input "A" the loop computes 0xC0, the specification's checksum, and
`calculate_crc` again returns 0x46. -/
theorem calculate_crc_returns_F_not_crc8 :
    calculate_crc [] 0 = 70 ∧ checksum_spec [] = 0 ∧ crc_loop [] 0 0 0 = 0 ∧
    calculate_crc [65] 1 = 70 ∧ checksum_spec [65] = 192 ∧ crc_loop [65] 1 0 0 = 192 := by
  decide

/-- C2: `parse_message` passes a message to `execute_command` only if `length >= 3` and
`data[length-1]` equals `calculate_crc(data, length-1)`; and for every buffer of length at
least 3 whose trailing byte differs from that value it logs "CRC invalido." and nothing
else, so no command is dispatched. -/
theorem parse_message_dispatch_requires_crc (data : List Nat) (length : Int) :
    (∀ msg : protocol_t, parse_message_msg data length = Except.ok msg →
        3 ≤ length ∧ data.getD (length - 1).toNat 0 = calculate_crc data (length - 1)) ∧
    (3 ≤ length → data.getD (length - 1).toNat 0 ≠ calculate_crc data (length - 1) →
        parse_message_msg data length = Except.error log_t.crc_invalido ∧
        parse_message data length = [log_t.crc_invalido]) := by
  constructor
  · intro msg hmsg
    by_cases h3 : length < 3
    · rw [parse_message_msg_short data length h3] at hmsg
      cases hmsg
    · by_cases hcrc : data.getD (length - 1).toNat 0 = 70
      · exact ⟨by omega, by rw [calculate_crc_eq]; exact hcrc⟩
      · rw [parse_message_msg_bad_crc data length (by omega) hcrc] at hmsg
        cases hmsg
  · intro h3 hcrc
    rw [calculate_crc_eq] at hcrc
    have e := parse_message_msg_bad_crc data length h3 hcrc
    exact ⟨e, parse_message_of_error data length _ e⟩

/-- Witness for C2: "A123F" is dispatched and satisfies both conditions; "A123D" has a
wrong trailing byte and is answered with "CRC invalido." only. -/
theorem parse_message_dispatch_requires_crc_witness :
    ((3 : Int) ≤ 5 ∧
      [65, 49, 50, 51, 70].getD ((5 : Int) - 1).toNat 0
        = calculate_crc [65, 49, 50, 51, 70] (5 - 1)) ∧
    (parse_message_msg [65, 49, 50, 51, 68] 5 = Except.error log_t.crc_invalido ∧
      parse_message [65, 49, 50, 51, 68] 5 = [log_t.crc_invalido]) :=
  ⟨(parse_message_dispatch_requires_crc [65, 49, 50, 51, 70] 5).1
      { command := 65, payload := 123, crc := none } rfl,
   (parse_message_dispatch_requires_crc [65, 49, 50, 51, 68] 5).2 (by decide) (by decide)⟩

/-- C3: for every buffer and every length below 3, `parse_message` logs exactly
"Tamanho da mensagem invalido.": not "CRC invalido.", and no message reaches
`execute_command`. -/
theorem parse_message_too_short (data : List Nat) (length : Int) (h : length < 3) :
    parse_message_msg data length = Except.error log_t.tamanho_invalido ∧
    parse_message data length = [log_t.tamanho_invalido] ∧
    parse_message data length ≠ [log_t.crc_invalido] ∧
    ∀ msg : protocol_t, parse_message_msg data length ≠ Except.ok msg := by
  have e := parse_message_msg_short data length h
  have e2 := parse_message_of_error data length _ e
  refine ⟨e, e2, ?_, ?_⟩
  · rw [e2]
    decide
  · intro msg hmsg
    rw [e] at hmsg
    cases hmsg

/-- Witness for C3: the two-byte span "XF", whose last byte is the value `calculate_crc`
returns, is still rejected as too short. -/
theorem parse_message_too_short_witness :
    parse_message_msg [88, 70] 2 = Except.error log_t.tamanho_invalido ∧
    parse_message [88, 70] 2 = [log_t.tamanho_invalido] ∧
    parse_message [88, 70] 2 ≠ [log_t.crc_invalido] ∧
    ∀ msg : protocol_t, parse_message_msg [88, 70] 2 ≠ Except.ok msg :=
  parse_message_too_short [88, 70] 2 (by decide)

/-- C4: for every frame made of a command byte, an optional leading '-', one or more
ASCII decimal digits (leading zeros allowed) of numeric value `n <= 2147483647`, and the
trailing byte `calculate_crc` computes, `parse_message` passes to `execute_command` the
message with that command and payload `n` without the '-', `-n` with it. -/
theorem parse_message_signed_decimal (command : Nat) (negative : Bool) (digits : List Nat)
    (hne : digits ≠ []) (hd : ∀ b ∈ digits, 48 ≤ b ∧ b ≤ 57)
    (hv : decimal_value digits ≤ 2147483647) :
    parse_message_msg (frame_of (frame_body command negative digits))
        (frame_of (frame_body command negative digits)).length = Except.ok
      { command := command
        payload := if negative then -(decimal_value digits : Int) else decimal_value digits
        crc := none } ∧
    parse_message (frame_of (frame_body command negative digits))
        (frame_of (frame_body command negative digits)).length = execute_command
      { command := command
        payload := if negative then -(decimal_value digits : Int) else decimal_value digits
        crc := none } := by
  have key := parse_message_msg_signed_frame command negative digits hne hd hv
  exact ⟨key, parse_message_of_msg _ _ _ key⟩

/-- Witness for C4: the frame 'A','-','1','2',checksum reports command 'A' with payload
-12; the payload bytes "1234" give 1234 and "-1234" give -1234. -/
theorem parse_message_signed_decimal_witness :
    parse_message (frame_of (frame_body 65 true [49, 50]))
        (frame_of (frame_body 65 true [49, 50])).length = [log_t.executando_A (-12)] ∧
    parse_message_msg (frame_of (frame_body 66 false [49, 50, 51, 52]))
        (frame_of (frame_body 66 false [49, 50, 51, 52])).length
      = Except.ok { command := 66, payload := 1234, crc := none } ∧
    parse_message_msg (frame_of (frame_body 66 true [49, 50, 51, 52]))
        (frame_of (frame_body 66 true [49, 50, 51, 52])).length
      = Except.ok { command := 66, payload := -1234, crc := none } :=
  ⟨(parse_message_signed_decimal 65 true [49, 50] (by decide) (by decide) (by decide)).2,
   (parse_message_signed_decimal 66 false [49, 50, 51, 52]
      (by decide) (by decide) (by decide)).1,
   (parse_message_signed_decimal 66 true [49, 50, 51, 52]
      (by decide) (by decide) (by decide)).1⟩

/-- C5: for every buffer and length with `3 <= length` (the frame lying inside the
buffer) whose trailing byte is the one `calculate_crc` computes, whatever the payload
bytes, `parse_message` passes to `execute_command` the message with command `data[0]` and
payload the specification's left fold over `data[start .. length-2]` in 32-bit signed
arithmetic, negated when `data[1] == '-'`, where `start` is 2 if `data[1] == '-'` and 1
otherwise. -/
theorem parse_message_unchecked_payload (data : List Nat) (length : Int) (h3 : 3 ≤ length)
    (hlen : length ≤ data.length)
    (hcrc : data.getD (length - 1).toNat 0 = calculate_crc data (length - 1)) :
    parse_message_msg data length = Except.ok
      { command := data.getD 0 0
        payload :=
          if data.getD 1 0 = 45 then
            wrap_int32 (-(payload_fold_spec
              ((data.take (length - 1).toNat).drop (if data.getD 1 0 = 45 then 2 else 1))))
          else
            payload_fold_spec
              ((data.take (length - 1).toNat).drop (if data.getD 1 0 = 45 then 2 else 1))
        crc := none } ∧
    parse_message data length = execute_command
      { command := data.getD 0 0
        payload :=
          if data.getD 1 0 = 45 then
            wrap_int32 (-(payload_fold_spec
              ((data.take (length - 1).toNat).drop (if data.getD 1 0 = 45 then 2 else 1))))
          else
            payload_fold_spec
              ((data.take (length - 1).toNat).drop (if data.getD 1 0 = 45 then 2 else 1))
        crc := none } := by
  rw [calculate_crc_eq] at hcrc
  have key := parse_message_msg_fold data length h3 hlen hcrc
  have e : (if data.getD 1 0 = 45 then
            wrap_int32 (-(payload_fold_spec
              ((data.take (length - 1).toNat).drop (if data.getD 1 0 = 45 then 2 else 1))))
          else
            payload_fold_spec
              ((data.take (length - 1).toNat).drop (if data.getD 1 0 = 45 then 2 else 1)))
      = (if data.getD 1 0 = 45 then
            wrap_int32 (-(payload_fold_spec ((data.take (length - 1).toNat).drop 2)))
          else payload_fold_spec ((data.take (length - 1).toNat).drop 1)) := by
    by_cases hs : data.getD 1 0 = 45
    · rw [if_pos hs, if_pos hs, if_pos hs]
    · rw [if_neg hs, if_neg hs, if_neg hs]
  rw [e]
  exact ⟨key, parse_message_of_msg _ _ _ key⟩

/-- Witness for C5: the frame 'A',' ','x','F' has two payload bytes that are not digits
and is dispatched with payload (32-48)*10 + (120-48) = -88; with the same buffer of four
bytes, 'A','-','x','F' is dispatched with payload -(120-48) = -72. -/
theorem parse_message_unchecked_payload_witness :
    parse_message [65, 32, 120, 70] 4 = [log_t.executando_A (-88)] ∧
    parse_message [65, 45, 120, 70] 4 = [log_t.executando_A (-72)] :=
  ⟨(parse_message_unchecked_payload [65, 32, 120, 70] 4
      (by decide) (by decide) (by decide)).2,
   (parse_message_unchecked_payload [65, 45, 120, 70] 4
      (by decide) (by decide) (by decide)).2⟩

/-- C7: `calculate_crc` returns the constant 'F' (0x46) for every buffer and length,
although its loop has computed the CRC-8 of the span; so `parse_message` passes a message
to `execute_command` for a buffer of length at least 3 exactly when the trailing byte is
0x46, whatever the other bytes. -/
theorem calculate_crc_constant (data : List Nat) (length : Int) :
    calculate_crc data length = 70 ∧
    crc_loop data data.length 0 0 = checksum_spec data ∧
    (3 ≤ length →
      ((∃ msg : protocol_t, parse_message_msg data length = Except.ok msg) ↔
        data.getD (length - 1).toNat 0 = 70)) := by
  refine ⟨rfl, crc_loop_eq_checksum_spec data, ?_⟩
  intro h3
  constructor
  · rintro ⟨msg, hmsg⟩
    by_contra hne
    rw [parse_message_msg_bad_crc data length h3 hne] at hmsg
    cases hmsg
  · intro hcrc
    exact ⟨_, parse_message_msg_good data length h3 hcrc⟩

/-- Witness for C7: for the three-byte buffer "ZZF" acceptance is equivalent to the
trailing byte being 0x46. -/
theorem calculate_crc_constant_witness :
    ((∃ msg : protocol_t, parse_message_msg [90, 90, 70] 3 = Except.ok msg) ↔
      [90, 90, 70].getD ((3 : Int) - 1).toNat 0 = 70) :=
  (calculate_crc_constant [90, 90, 70] 3).2.2 (by decide)

/-! ## Claims about `execute_command` and `uart_event_task` -/

/-- C8: `execute_command` always logs exactly one line: for command 'A' the report of
command A with the message's payload, for command 'B' the report of command B with the
message's payload, and for every other command byte the unknown-command report carrying
that byte. Hence a buffer of length at least 3 whose trailing byte is the one
`calculate_crc` computes and whose command is neither 'A' nor 'B' is decoded without error
and logs exactly the unknown-command report. -/
theorem execute_command_total (msg : protocol_t) (data : List Nat) (length : Int) :
    (execute_command msg).length = 1 ∧
    (msg.command = 65 → execute_command msg = [log_t.executando_A msg.payload]) ∧
    (msg.command = 66 → execute_command msg = [log_t.executando_B msg.payload]) ∧
    (msg.command ≠ 65 → msg.command ≠ 66 →
      execute_command msg = [log_t.comando_desconhecido msg.command]) ∧
    (3 ≤ length → data.getD (length - 1).toNat 0 = calculate_crc data (length - 1) →
      data.getD 0 0 ≠ 65 → data.getD 0 0 ≠ 66 →
      (∃ m : protocol_t, parse_message_msg data length = Except.ok m) ∧
      parse_message data length = [log_t.comando_desconhecido (data.getD 0 0)]) := by
  have hA : msg.command = 65 → execute_command msg = [log_t.executando_A msg.payload] := by
    intro h
    unfold execute_command
    rw [h]
  have hB : msg.command = 66 → execute_command msg = [log_t.executando_B msg.payload] := by
    intro h
    unfold execute_command
    rw [h]
  have hU : ∀ m : protocol_t, m.command ≠ 65 → m.command ≠ 66 →
      execute_command m = [log_t.comando_desconhecido m.command] := by
    intro m h1 h2
    unfold execute_command
    split
    · next h => exact absurd h h1
    · next h => exact absurd h h2
    · rfl
  refine ⟨?_, hA, hB, hU msg, ?_⟩
  · by_cases h1 : msg.command = 65
    · rw [hA h1]
      rfl
    · by_cases h2 : msg.command = 66
      · rw [hB h2]
        rfl
      · rw [hU msg h1 h2]
        rfl
  · intro h3 hcrc h1 h2
    rw [calculate_crc_eq] at hcrc
    have key := parse_message_msg_good data length h3 hcrc
    refine ⟨⟨_, key⟩, ?_⟩
    rw [parse_message_of_msg _ _ _ key]
    exact hU _ h1 h2

/-- Witness for C8: command 'A' with payload 7, command 'B' with payload -3, command 'Z'
with payload 5, and the frame "Z12F". -/
theorem execute_command_total_witness :
    execute_command { command := 65, payload := 7, crc := none } = [log_t.executando_A 7] ∧
    execute_command { command := 66, payload := -3, crc := none }
      = [log_t.executando_B (-3)] ∧
    execute_command { command := 90, payload := 5, crc := none }
      = [log_t.comando_desconhecido 90] ∧
    ((∃ m : protocol_t, parse_message_msg [90, 49, 50, 70] 4 = Except.ok m) ∧
      parse_message [90, 49, 50, 70] 4 = [log_t.comando_desconhecido 90]) :=
  ⟨(execute_command_total { command := 65, payload := 7, crc := none } [] 0).2.1 rfl,
   (execute_command_total { command := 66, payload := -3, crc := none } [] 0).2.2.1 rfl,
   (execute_command_total { command := 90, payload := 5, crc := none } [] 0).2.2.2.1
      (by decide) (by decide),
   (execute_command_total { command := 90, payload := 5, crc := none } [90, 49, 50, 70] 4
      ).2.2.2.2 (by decide) (by decide) (by decide) (by decide)⟩

/-- The echo for the sizes at which `event.size - 1` does not wrap and the read fits
`dtmp`: for every data event of size between 1 and the size of the read buffer, with `rx`
the `size` bytes received, one iteration of the event loop logs, reads, runs
`parse_message` and then issues a single write, and the bytes of that write are the first
`size - 1` bytes of `rx`, whatever `parse_message` logged (dispatch, too short, or CRC
error). -/
theorem uart_data_echo (size : Nat) (rx : List Nat) (h1 : 1 ≤ size)
    (h2 : size ≤ RD_BUF_SIZE) (hrx : rx.length = size) :
    uart_event_iteration { type := uart_event_type_t.UART_DATA, size := size } rx =
      [effect_t.log log_t.uart_event, effect_t.log (log_t.uart_data size),
        effect_t.uart_read_bytes size]
      ++ (parse_message (dtmp_after_read rx size) size).map effect_t.log
      ++ [effect_t.uart_write_bytes (dtmp_after_read rx size) (size - 1)] ∧
    (uart_event_iteration { type := uart_event_type_t.UART_DATA, size := size } rx).filterMap
      bytes_written = [rx.take (size - 1)] := by
  have e : uart_event_iteration { type := uart_event_type_t.UART_DATA, size := size } rx =
      [effect_t.log log_t.uart_event, effect_t.log (log_t.uart_data size),
        effect_t.uart_read_bytes size]
      ++ (parse_message (dtmp_after_read rx size) size).map effect_t.log
      ++ [effect_t.uart_write_bytes (dtmp_after_read rx size) (size - 1)] := by
    unfold uart_event_iteration
    simp only [size_pred_eq size h1 h2, size_to_int_eq size h2]
    rfl
  refine ⟨e, ?_⟩
  rw [e, List.filterMap_append, List.filterMap_append, filterMap_bytes_written_log]
  simp only [List.filterMap_cons, List.filterMap_nil, bytes_written, List.append_nil,
    List.nil_append]
  rw [take_dtmp_after_read rx size hrx]

/-- Instances of the echo: the two-byte input 'X','F' is rejected as too short and the
one-byte prefix 'X' is written; 'A','1','2','3','F' is dispatched and 'A','1','2','3' is
written; 'A','1','2','3','D' fails the CRC check and 'A','1','2','3' is written. -/
theorem uart_data_echo_witness :
    (uart_event_iteration { type := uart_event_type_t.UART_DATA, size := 2 }
      [88, 70]).filterMap bytes_written = [[88]] ∧
    (uart_event_iteration { type := uart_event_type_t.UART_DATA, size := 5 }
      [65, 49, 50, 51, 70]).filterMap bytes_written = [[65, 49, 50, 51]] ∧
    (uart_event_iteration { type := uart_event_type_t.UART_DATA, size := 5 }
      [65, 49, 50, 51, 68]).filterMap bytes_written = [[65, 49, 50, 51]] :=
  ⟨(uart_data_echo 2 [88, 70] (by decide) (by decide) rfl).2,
   (uart_data_echo 5 [65, 49, 50, 51, 70] (by decide) (by decide) rfl).2,
   (uart_data_echo 5 [65, 49, 50, 51, 68] (by decide) (by decide) rfl).2⟩

set_option maxRecDepth 100000 in
/-- C9 (defect in the code): the claim says that for every data event the sink is told to
write exactly the leading `size - 1` bytes of the received frame. For a data event of size
0 the received frame is empty, `parse_message` logs "Tamanho da mensagem invalido.", and
line 115 computes `event.size - 1` in `size_t`, which wraps to 4294967295: the write
instruction asks for 4294967295 bytes starting at `dtmp`, and hands the sink the 1024 zero
bytes of the buffer, none of which is a byte of the received frame. For the sizes from 1
to the size of the buffer the echo is as the claim says (`uart_data_echo`). -/
theorem uart_data_echo_size_zero :
    size_pred 0 = 4294967295 ∧
    uart_event_iteration { type := uart_event_type_t.UART_DATA, size := 0 } [] =
      [effect_t.log log_t.uart_event, effect_t.log (log_t.uart_data 0),
        effect_t.uart_read_bytes 0, effect_t.log log_t.tamanho_invalido,
        effect_t.uart_write_bytes (List.replicate 1024 0) 4294967295] ∧
    (uart_event_iteration { type := uart_event_type_t.UART_DATA, size := 0 } []).filterMap
      bytes_written = [List.replicate 1024 0] ∧
    List.replicate 1024 (0 : Nat) ≠ ([] : List Nat).take (0 - 1) := by
  refine ⟨by decide, by decide, by decide, by decide⟩

/-- C10: for every FIFO-overflow event and every buffer-full event, one iteration of the
event loop issues, besides its two log lines, exactly one flush and then exactly one
event-queue reset: no read, no write, and no line of `parse_message` or
`execute_command`; the loop then goes on with the remaining events. -/
theorem uart_overflow_recovery (event : uart_event_t) (rx : List Nat)
    (rest : List (uart_event_t × List Nat))
    (h : event.type = uart_event_type_t.UART_FIFO_OVF ∨
      event.type = uart_event_type_t.UART_BUFFER_FULL) :
    (uart_event_iteration event rx =
        [effect_t.log log_t.uart_event, effect_t.log log_t.fifo_overflow,
          effect_t.uart_flush_input, effect_t.xQueueReset] ∨
      uart_event_iteration event rx =
        [effect_t.log log_t.uart_event, effect_t.log log_t.buffer_cheio,
          effect_t.uart_flush_input, effect_t.xQueueReset]) ∧
    (uart_event_iteration event rx).count effect_t.uart_flush_input = 1 ∧
    (uart_event_iteration event rx).count effect_t.xQueueReset = 1 ∧
    (∀ e ∈ uart_event_iteration event rx,
      (∀ n, e ≠ effect_t.uart_read_bytes n) ∧ (∀ src n, e ≠ effect_t.uart_write_bytes src n) ∧
      (∀ line, e = effect_t.log line →
        line = log_t.uart_event ∨ line = log_t.fifo_overflow ∨ line = log_t.buffer_cheio)) ∧
    uart_event_task ((event, rx) :: rest) =
      uart_event_iteration event rx ++ uart_event_task rest := by
  have hrun : uart_event_task ((event, rx) :: rest) =
      uart_event_iteration event rx ++ uart_event_task rest := rfl
  rcases h with h | h
  · have e : uart_event_iteration event rx =
        [effect_t.log log_t.uart_event, effect_t.log log_t.fifo_overflow,
          effect_t.uart_flush_input, effect_t.xQueueReset] := by
      unfold uart_event_iteration
      rw [h]
    refine ⟨Or.inl e, ?_, ?_, ?_, hrun⟩
    · rw [e]; decide
    · rw [e]; decide
    · rw [e]
      intro x hx
      simp only [List.mem_cons, List.mem_singleton, List.mem_nil_iff, or_false] at hx
      rcases hx with hx | hx | hx | hx <;> subst hx <;> simp
  · have e : uart_event_iteration event rx =
        [effect_t.log log_t.uart_event, effect_t.log log_t.buffer_cheio,
          effect_t.uart_flush_input, effect_t.xQueueReset] := by
      unfold uart_event_iteration
      rw [h]
    refine ⟨Or.inr e, ?_, ?_, ?_, hrun⟩
    · rw [e]; decide
    · rw [e]; decide
    · rw [e]
      intro x hx
      simp only [List.mem_cons, List.mem_singleton, List.mem_nil_iff, or_false] at hx
      rcases hx with hx | hx | hx | hx <;> subst hx <;> simp

/-- Witness for C10: a FIFO-overflow event with unread bytes pending, followed by a
buffer-full event; each issues one flush and one queue reset, and the loop goes on from
the first to the second. -/
theorem uart_overflow_recovery_witness :
    ((uart_event_iteration { type := uart_event_type_t.UART_FIFO_OVF, size := 0 }
        [65, 49]).count effect_t.uart_flush_input = 1 ∧
      (uart_event_iteration { type := uart_event_type_t.UART_FIFO_OVF, size := 0 }
        [65, 49]).count effect_t.xQueueReset = 1) ∧
    ((uart_event_iteration { type := uart_event_type_t.UART_BUFFER_FULL, size := 0 }
        []).count effect_t.uart_flush_input = 1 ∧
      (uart_event_iteration { type := uart_event_type_t.UART_BUFFER_FULL, size := 0 }
        []).count effect_t.xQueueReset = 1) ∧
    uart_event_task
      [({ type := uart_event_type_t.UART_FIFO_OVF, size := 0 }, [65, 49]),
       ({ type := uart_event_type_t.UART_BUFFER_FULL, size := 0 }, [])] =
      uart_event_iteration { type := uart_event_type_t.UART_FIFO_OVF, size := 0 } [65, 49]
      ++ uart_event_task [({ type := uart_event_type_t.UART_BUFFER_FULL, size := 0 }, [])] :=
  ⟨⟨(uart_overflow_recovery { type := uart_event_type_t.UART_FIFO_OVF, size := 0 } [65, 49]
      [] (Or.inl rfl)).2.1,
    (uart_overflow_recovery { type := uart_event_type_t.UART_FIFO_OVF, size := 0 } [65, 49]
      [] (Or.inl rfl)).2.2.1⟩,
   ⟨(uart_overflow_recovery { type := uart_event_type_t.UART_BUFFER_FULL, size := 0 } []
      [] (Or.inr rfl)).2.1,
    (uart_overflow_recovery { type := uart_event_type_t.UART_BUFFER_FULL, size := 0 } []
      [] (Or.inr rfl)).2.2.1⟩,
   (uart_overflow_recovery { type := uart_event_type_t.UART_FIFO_OVF, size := 0 } [65, 49]
    [({ type := uart_event_type_t.UART_BUFFER_FULL, size := 0 }, [])] (Or.inl rfl)).2.2.2.2⟩

/-! ## The roundtrip property -/

/-- C6 (counterexample): the frame 'A','0','0','7',checksum is a command byte, decimal
digits and the computed checksum; it decodes to command 'A' with payload 7, which encodes
to 'A','7' and not to the original 'A','0','0','7'. Likewise 'A','-','0',checksum decodes
to payload 0, which encodes to 'A','0'; and 'A','4','2','9','4','9','6','7','2','9','6',
checksum decodes to payload 0 by 32-bit wrap-around. -/
theorem encode_decode_not_identity :
    parse_message_msg (frame_of [65, 48, 48, 55]) (frame_of [65, 48, 48, 55]).length
      = Except.ok { command := 65, payload := 7, crc := none } ∧
    encode 65 7 = [65, 55] ∧ encode 65 7 ≠ [65, 48, 48, 55] ∧
    parse_message_msg (frame_of [65, 45, 48]) (frame_of [65, 45, 48]).length
      = Except.ok { command := 65, payload := 0, crc := none } ∧
    encode 65 0 = [65, 48] ∧ encode 65 0 ≠ [65, 45, 48] ∧
    parse_message_msg (frame_of [65, 52, 50, 57, 52, 57, 54, 55, 50, 57, 54])
        (frame_of [65, 52, 50, 57, 52, 57, 54, 55, 50, 57, 54]).length
      = Except.ok { command := 65, payload := 0, crc := none } ∧
    encode 65 0 ≠ [65, 52, 50, 57, 52, 57, 54, 55, 50, 57, 54] := by
  have e7 : encode 65 7 = [65, 55] := by
    simp [encode, decimal_rendering]
  have e0 : encode 65 0 = [65, 48] := by
    simp [encode, decimal_rendering]
  refine ⟨rfl, e7, ?_, rfl, e0, ?_, rfl, ?_⟩
  · rw [e7]; decide
  · rw [e0]; decide
  · rw [e0]; decide

/-- C6 (amended): for every frame made of a command byte, an optional leading '-', a
canonical string of ASCII decimal digits (one or more digits, no leading zero unless the
string is "0", and no '-' before "0") of numeric value at most 2147483647, and the trailing
byte `calculate_crc` computes, `parse_message` decodes a message, and encoding its command
and payload gives back the command-and-payload portion of the frame. -/
theorem encode_decode_canonical (command : Nat) (negative : Bool) (digits : List Nat)
    (hne : digits ≠ []) (hd : ∀ b ∈ digits, 48 ≤ b ∧ b ≤ 57)
    (hcanon : digits.head? ≠ some 48 ∨ (digits = [48] ∧ negative = false))
    (hv : decimal_value digits ≤ 2147483647) :
    ∃ msg : protocol_t,
      parse_message_msg (frame_of (frame_body command negative digits))
        (frame_of (frame_body command negative digits)).length = Except.ok msg ∧
      encode msg.command msg.payload = frame_body command negative digits := by
  refine ⟨_, parse_message_msg_signed_frame command negative digits hne hd hv, ?_⟩
  cases digits with
  | nil => exact absurd rfl hne
  | cons d ds =>
    have hc : d ≠ 48 ∨ ds = [] := by
      rcases hcanon with h | h
      · left
        intro h48
        exact h (by rw [h48]; rfl)
      · right
        have := h.1
        simp at this
        exact this.2
    have hr := decimal_rendering_value d ds hd hc
    cases negative with
    | false =>
      simp only [encode, frame_body, Bool.false_eq_true, if_false, List.nil_append,
        Int.natAbs_ofNat]
      have hnn : ¬ ((decimal_value (d :: ds) : Int) < 0) := by omega
      rw [if_neg hnn, hr]
      rfl
    | true =>
      have h48 : d ≠ 48 := by
        rcases hcanon with h | h
        · intro h48
          exact h (by rw [h48]; rfl)
        · exact absurd h.2 (by decide)
      have hpos : 0 < decimal_value (d :: ds) := by
        rcases Nat.eq_zero_or_pos (decimal_value (d :: ds)) with h0 | h0
        · rw [h0] at hr
          have : decimal_rendering 0 = [48] := by simp [decimal_rendering]
          rw [this] at hr
          simp at hr
          exact absurd hr.1.symm h48
        · exact h0
      simp only [encode, frame_body, if_true, Int.natAbs_neg, Int.natAbs_ofNat]
      have hneg : (-(decimal_value (d :: ds) : Int) < 0) := by omega
      rw [if_pos hneg, hr]

/-- Witness for C6 (amended): the frame 'B','-','1','2','0',checksum decodes and encodes
back to 'B','-','1','2','0'. -/
theorem encode_decode_canonical_witness :
    ∃ msg : protocol_t,
      parse_message_msg (frame_of (frame_body 66 true [49, 50, 48]))
        (frame_of (frame_body 66 true [49, 50, 48])).length = Except.ok msg ∧
      encode msg.command msg.payload = frame_body 66 true [49, 50, 48] :=
  encode_decode_canonical 66 true [49, 50, 48] (by decide) (by decide)
    (Or.inl (by decide)) (by decide)

/-! ## Length sensitivity of the checksum -/

/-- C11 (defect in the code): the claim says that appending a byte changes the checksum
for some input. The CRC-8 that the loop of lines 32-39 computes has this property (it is 0
for the empty sequence and 7 for the one-byte sequence 0x01, like the specification's
checksum), but `calculate_crc` returns the same value for every sequence `x`, every byte
`b` and every pair of lengths, so no `x` and `b` exist for it. -/
theorem calculate_crc_not_length_sensitive :
    (∀ (x : List Nat) (b : Nat),
      calculate_crc (x ++ [b]) ((x ++ [b]).length : Int) = calculate_crc x (x.length : Int)) ∧
    ¬ (∃ (x : List Nat) (b : Nat),
      calculate_crc (x ++ [b]) ((x ++ [b]).length : Int) ≠ calculate_crc x (x.length : Int)) ∧
    calculate_crc [1] 1 = 70 ∧ calculate_crc [] 0 = 70 ∧
    crc_loop [1] 1 0 0 = 7 ∧ crc_loop [] 0 0 0 = 0 ∧
    checksum_spec [1] = 7 ∧ checksum_spec [] = 0 := by
  refine ⟨fun _ _ => rfl, ?_, rfl, rfl, by decide, by decide, by decide, by decide⟩
  rintro ⟨x, b, h⟩
  exact h rfl

end Ex4

namespace Ex2

/-! ## Helper lemmas -/

theorem step_state_cases (fsm : fsm_t) (x : input) :
    (step fsm x).state = fsm.state ∨ (step fsm x).state = successor fsm.state := by
  obtain ⟨st, old, tg, c, d, ttt⟩ := fsm
  obtain ⟨g, now⟩ := x
  cases st <;>
    simp only [step, process_fsm, update_fsm_conditions, successor] <;>
    split_ifs <;> simp

theorem step_stay (fsm : fsm_t) (x : input) (s : state) (t0 : Nat)
    (hs : fsm.state = s) (hold : fsm.old_state = s) (h0 : t0 ≤ fsm.time_to_transition)
    (hb : fsm.time_to_transition < 9223372036854775808)
    (hx0 : t0 ≤ x.now.at_update) (hxb : x.now.at_update < 9223372036854775808) :
    ((step fsm x).state = s ∧ (step fsm x).old_state = s ∧
        t0 ≤ (step fsm x).time_to_transition ∧
        (step fsm x).time_to_transition < 9223372036854775808) ∨
      ((step fsm x).state ≠ s ∧ t0 + debounce_of s ≤ x.now.at_check) := by
  obtain ⟨st, old, tg, c, d, ttt⟩ := fsm
  obtain ⟨g, now⟩ := x
  simp only at hs hold h0 hb hx0 hxb
  subst hs hold
  cases old <;>
    simp only [step, process_fsm, update_fsm_conditions, debounce_of, DEBOUNCE_MS, ne_eq,
      not_true_eq_false, if_false] <;>
    split_ifs <;> simp <;> omega

theorem step_first (fsm : fsm_t) (x : input) (hne : fsm.old_state ≠ fsm.state)
    (hxe : x.now.at_entry < 9223372036854775808)
    (hxu : x.now.at_update < 9223372036854775808)
    (hord : x.now.at_entry ≤ x.now.at_update) :
    ((step fsm x).state = fsm.state ∧ (step fsm x).old_state = fsm.state ∧
        x.now.at_entry ≤ (step fsm x).time_to_transition ∧
        (step fsm x).time_to_transition < 9223372036854775808) ∨
      ((step fsm x).state ≠ fsm.state ∧
        x.now.at_entry + debounce_of fsm.state ≤ x.now.at_check) := by
  obtain ⟨st, old, tg, c, d, ttt⟩ := fsm
  obtain ⟨g, now⟩ := x
  simp only at hne hxe hxu hord
  cases st <;>
    simp only [step, process_fsm, update_fsm_conditions, debounce_of, DEBOUNCE_MS, ne_eq,
      hne, not_false_eq_true, if_true] <;>
    split_ifs <;> simp <;> omega

theorem step_enter (fsm : fsm_t) (e : input) (h : (step fsm e).state ≠ fsm.state) :
    (step fsm e).old_state ≠ (step fsm e).state := by
  obtain ⟨st, old, tg, c, d, ttt⟩ := fsm
  obtain ⟨g, now⟩ := e
  revert h
  cases st <;> cases old <;>
    simp only [step, process_fsm, update_fsm_conditions] <;>
    split_ifs <;> simp_all

theorem simple_fsm_cons (fsm : fsm_t) (x : input) (xs : List input) :
    simple_fsm fsm (x :: xs) = simple_fsm (step fsm x) xs := rfl

theorem simple_fsm_stay (s : state) (t0 : Nat) (stay : List input) :
    ∀ fsm : fsm_t, fsm.state = s → fsm.old_state = s → t0 ≤ fsm.time_to_transition →
      fsm.time_to_transition < 9223372036854775808 →
      (∀ y ∈ stay, t0 ≤ y.now.at_update ∧ y.now.at_update < 9223372036854775808) →
      (∀ k, k ≤ stay.length → (simple_fsm fsm (stay.take k)).state = s) →
      (simple_fsm fsm stay).state = s ∧ (simple_fsm fsm stay).old_state = s ∧
        t0 ≤ (simple_fsm fsm stay).time_to_transition ∧
        (simple_fsm fsm stay).time_to_transition < 9223372036854775808 := by
  induction stay with
  | nil =>
    intro fsm hs hold h0 hb _ _
    exact ⟨hs, hold, h0, hb⟩
  | cons y ys ih =>
    intro fsm hs hold h0 hb hy hstay
    have hy0 := hy y (by simp)
    have h1 : (step fsm y).state = s := hstay 1 (by simp)
    rcases step_stay fsm y s t0 hs hold h0 hb hy0.1 hy0.2 with hl | hr
    · rw [simple_fsm_cons]
      refine ih (step fsm y) hl.1 hl.2.1 hl.2.2.1 hl.2.2.2
        (fun z hz => hy z (by simp [hz])) ?_
      intro k hk
      have := hstay (k + 1) (by simpa using hk)
      rw [List.take_succ_cons, simple_fsm_cons] at this
      exact this
    · exact absurd h1 hr.1

theorem at_update_mem_timer_readings (l : List input) :
    ∀ y ∈ l, y.now.at_update ∈ timer_readings l ∧ y.now.at_entry ∈ timer_readings l := by
  induction l with
  | nil => intro y hy; cases hy
  | cons a as ih =>
    intro y hy
    rcases List.mem_cons.1 hy with h | h
    · subst h
      simp [timer_readings]
    · have := ih y h
      simp [timer_readings, this.1, this.2]

theorem simple_fsm_append (fsm : fsm_t) (a b : List input) :
    simple_fsm fsm (a ++ b) = simple_fsm (simple_fsm fsm a) b := by
  unfold simple_fsm
  rw [List.foldl_append]

theorem debounce_from (f1 : fsm_t) (stay : List input) (x : input)
    (hne : f1.old_state ≠ f1.state)
    (hstay : ∀ k, k ≤ stay.length → (simple_fsm f1 (stay.take k)).state = f1.state)
    (hleave : (simple_fsm f1 (stay ++ [x])).state ≠ f1.state)
    (hmono : (timer_readings (stay ++ [x])).Pairwise (fun a b => a ≤ b))
    (hbound : ∀ t ∈ timer_readings (stay ++ [x]), t < 9223372036854775808) :
    first_entry (stay ++ [x]) + debounce_of f1.state ≤ x.now.at_check := by
  have hmem := at_update_mem_timer_readings (stay ++ [x])
  cases stay with
  | nil =>
    have hx := hmem x (by simp)
    rcases step_first f1 x hne (hbound _ hx.2) (hbound _ hx.1) (by
        simp only [List.nil_append, timer_readings, List.pairwise_cons] at hmono
        exact hmono.1 _ (by simp)) with hl | hr
    · exact absurd hl.1 hleave
    · exact hr.2
  | cons a rest =>
    have ha := hmem a (by simp)
    have hhead : ∀ t ∈ timer_readings (rest ++ [x]), a.now.at_entry ≤ t := by
      intro t ht
      simp only [List.cons_append, timer_readings, List.pairwise_cons] at hmono
      exact hmono.1 t (by simp [ht])
    have haord : a.now.at_entry ≤ a.now.at_update := by
      simp only [List.cons_append, timer_readings, List.pairwise_cons] at hmono
      exact hmono.1 _ (by simp)
    have hmem2 := at_update_mem_timer_readings (rest ++ [x])
    have hsub : ∀ t ∈ timer_readings (rest ++ [x]), t ∈ timer_readings ((a :: rest) ++ [x]) := by
      intro t ht
      simp [timer_readings, ht]
    have h1 : (step f1 a).state = f1.state := hstay 1 (by simp)
    rcases step_first f1 a hne (hbound _ ha.2) (hbound _ ha.1) haord with hl | hr
    · have hrun := simple_fsm_stay f1.state a.now.at_entry rest (step f1 a)
        hl.1 hl.2.1 hl.2.2.1 hl.2.2.2
        (fun y hy => by
          have hy2 := (hmem2 y (by simp [hy])).1
          exact ⟨hhead _ hy2, hbound _ (hsub _ hy2)⟩)
        (fun k hk => by
          have := hstay (k + 1) (by simpa using hk)
          rw [List.take_succ_cons, simple_fsm_cons] at this
          exact this)
      have hx2 := (hmem2 x (by simp)).1
      rw [List.cons_append, simple_fsm_cons, simple_fsm_append] at hleave
      rcases step_stay (simple_fsm (step f1 a) rest) x f1.state a.now.at_entry
          hrun.1 hrun.2.1 hrun.2.2.1 hrun.2.2.2 (hhead _ hx2) (hbound _ (hsub _ hx2))
        with hl2 | hr2
      · exact absurd hl2.1 hleave
      · exact hr2.2
    · exact absurd h1 hr.1

theorem debounce_initial (stay : List input) (x : input)
    (hstay : ∀ k, k ≤ stay.length → (simple_fsm local_fsm (stay.take k)).state = state.OFF)
    (hleave : (simple_fsm local_fsm (stay ++ [x])).state ≠ state.OFF)
    (hbound : ∀ t ∈ timer_readings (stay ++ [x]), t < 9223372036854775808) :
    300000 ≤ x.now.at_check := by
  have hmem := at_update_mem_timer_readings (stay ++ [x])
  have hrun := simple_fsm_stay state.OFF 0 stay local_fsm rfl rfl (Nat.zero_le _)
    (by decide)
    (fun y hy => ⟨Nat.zero_le _, hbound _ (hmem y (by simp [hy])).1⟩) hstay
  rw [simple_fsm_append] at hleave
  rcases step_stay (simple_fsm local_fsm stay) x state.OFF 0 hrun.1 hrun.2.1 hrun.2.2.1
      hrun.2.2.2 (Nat.zero_le _) (hbound _ (hmem x (by simp)).1) with hl | hr
  · exact absurd hl.1 hleave
  · have := hr.2
    simp only [debounce_of] at this
    omega

/-! ## Claims about the state machine -/

/-- C12 (counterexample): from the initial value of `local_fsm`, a single iteration with
GPIO low and every timer reading at 1 s moves the state from OFF to ON, although that
iteration is itself the first one executed in OFF, so that 0 and not 300 ms have elapsed
since it. Likewise, with a first iteration at 299999 us and a second at 300000 us, both
with GPIO low, the second moves the state to ON, 1 us after the first iteration executed
in OFF. -/
theorem debounce_not_from_first_step :
    local_fsm.state = state.OFF ∧
    (simple_fsm local_fsm
      [{ gpio_level := 0, now := { at_entry := 1000000, at_check := 1000000,
                                   at_update := 1000000 } }]).state = state.ON ∧
    ¬ (first_entry
        [{ gpio_level := 0, now := { at_entry := 1000000, at_check := 1000000,
                                     at_update := 1000000 } }]
      + debounce_of state.OFF ≤ 1000000) ∧
    (simple_fsm local_fsm
      [{ gpio_level := 0, now := { at_entry := 299999, at_check := 299999,
                                   at_update := 299999 } }]).state = state.OFF ∧
    (simple_fsm local_fsm
      [{ gpio_level := 0, now := { at_entry := 299999, at_check := 299999,
                                   at_update := 299999 } },
       { gpio_level := 0, now := { at_entry := 300000, at_check := 300000,
                                   at_update := 300000 } }]).state = state.ON ∧
    ¬ (first_entry
        [{ gpio_level := 0, now := { at_entry := 299999, at_check := 299999,
                                     at_update := 299999 } },
         { gpio_level := 0, now := { at_entry := 300000, at_check := 300000,
                                     at_update := 300000 } }]
      + debounce_of state.OFF ≤ 300000) := by
  decide

/-- C12 (amended): start from the initial value of `local_fsm` and run any sequence of
iterations `pre`, then an iteration `e` that changes the state, then iterations `stay`
that all leave the state unchanged, then an iteration `x` that changes it; let the timer
readings of `stay` and `x` be non-decreasing and below 2^63. Then the reading that `x`
compares at line 64 is at least the debounce time of the state being left (300 ms for OFF
and for ON, 10 s for PROTECTED) after the first reading of the first iteration executed in
that state. For the initial stay in OFF, which no iteration entered, the iteration that
leaves it compares a reading of at least 300 ms, that is, 300 ms after timer value 0. -/
theorem debounce_since_state_entered (pre : List input) (e : input) (stay : List input)
    (x : input)
    (hmono : (timer_readings (stay ++ [x])).Pairwise (fun a b => a ≤ b))
    (hbound : ∀ t ∈ timer_readings (stay ++ [x]), t < 9223372036854775808) :
    ((simple_fsm local_fsm (pre ++ [e])).state ≠ (simple_fsm local_fsm pre).state →
      (∀ k, k ≤ stay.length →
        (simple_fsm local_fsm (pre ++ e :: stay.take k)).state
          = (simple_fsm local_fsm (pre ++ [e])).state) →
      (simple_fsm local_fsm (pre ++ e :: (stay ++ [x]))).state
          ≠ (simple_fsm local_fsm (pre ++ [e])).state →
      first_entry (stay ++ [x]) + debounce_of (simple_fsm local_fsm (pre ++ [e])).state
        ≤ x.now.at_check) ∧
    ((∀ k, k ≤ stay.length → (simple_fsm local_fsm (stay.take k)).state = state.OFF) →
      (simple_fsm local_fsm (stay ++ [x])).state ≠ state.OFF →
      300000 ≤ x.now.at_check) := by
  constructor
  · intro henter hstay hleave
    have e1 : simple_fsm local_fsm (pre ++ [e]) = step (simple_fsm local_fsm pre) e := by
      rw [simple_fsm_append]
      rfl
    have e2 : ∀ l : List input, simple_fsm local_fsm (pre ++ e :: l)
        = simple_fsm (step (simple_fsm local_fsm pre) e) l := by
      intro l
      rw [simple_fsm_append, simple_fsm_cons]
    rw [e1] at henter hleave ⊢
    rw [e2] at hleave
    exact debounce_from (step (simple_fsm local_fsm pre) e) stay x
      (step_enter _ e henter)
      (fun k hk => by
        have := hstay k hk
        rw [e1, e2] at this
        exact this)
      hleave hmono hbound
  · intro hstay hleave
    exact debounce_initial stay x hstay hleave hbound

/-- Witness for C12 (amended): GPIO low at 1 s moves OFF to ON; in ON, iterations with
GPIO high at 1.00001 s and 1.2 s leave the state unchanged and the one at 1.4 s moves it
to PROTECTED, 399990 us after the first iteration executed in ON. And in the initial stay
in OFF, with GPIO low, an iteration at 0.1 s leaves the state unchanged and the one at
0.3 s moves it to ON. -/
theorem debounce_since_state_entered_witness :
    first_entry
        [{ gpio_level := 1, now := { at_entry := 1000010, at_check := 1000010,
                                     at_update := 1000010 } },
         { gpio_level := 1, now := { at_entry := 1200000, at_check := 1200000,
                                     at_update := 1200000 } },
         { gpio_level := 1, now := { at_entry := 1400000, at_check := 1400000,
                                     at_update := 1400000 } }]
      + debounce_of (simple_fsm local_fsm
          [{ gpio_level := 0, now := { at_entry := 1000000, at_check := 1000000,
                                       at_update := 1000000 } }]).state
      ≤ 1400000 ∧
    300000 ≤ ({ gpio_level := 0, now := { at_entry := 300000, at_check := 300000,
                                          at_update := 300000 } } : input).now.at_check :=
  ⟨(debounce_since_state_entered []
      { gpio_level := 0, now := { at_entry := 1000000, at_check := 1000000,
                                  at_update := 1000000 } }
      [{ gpio_level := 1, now := { at_entry := 1000010, at_check := 1000010,
                                   at_update := 1000010 } },
       { gpio_level := 1, now := { at_entry := 1200000, at_check := 1200000,
                                   at_update := 1200000 } }]
      { gpio_level := 1, now := { at_entry := 1400000, at_check := 1400000,
                                  at_update := 1400000 } }
      (by decide) (by decide)).1 (by decide) (by decide) (by decide),
   (debounce_since_state_entered []
      { gpio_level := 0, now := { at_entry := 0, at_check := 0, at_update := 0 } }
      [{ gpio_level := 0, now := { at_entry := 100000, at_check := 100000,
                                   at_update := 100000 } }]
      { gpio_level := 0, now := { at_entry := 300000, at_check := 300000,
                                  at_update := 300000 } }
      (by decide) (by decide)).2 (by decide) (by decide)⟩

/-- C13: for every `fsm_t` value, GPIO level and timer readings, one iteration
(`update_fsm_conditions` followed by `process_fsm`) leaves the state unchanged or moves it
to its successor in the cycle OFF, ON, PROTECTED, OFF; it never moves OFF to PROTECTED,
ON to OFF or PROTECTED to ON; and from OFF with GPIO high, or from ON with GPIO low, the
state does not change. -/
theorem step_follows_cycle (fsm : fsm_t) (gpio_level : Nat) (now : readings) :
    ((process_fsm (update_fsm_conditions fsm gpio_level) now).state = fsm.state ∨
      (process_fsm (update_fsm_conditions fsm gpio_level) now).state
        = successor fsm.state) ∧
    ¬ (fsm.state = state.OFF ∧
      (process_fsm (update_fsm_conditions fsm gpio_level) now).state = state.PROTECTED) ∧
    ¬ (fsm.state = state.ON ∧
      (process_fsm (update_fsm_conditions fsm gpio_level) now).state = state.OFF) ∧
    ¬ (fsm.state = state.PROTECTED ∧
      (process_fsm (update_fsm_conditions fsm gpio_level) now).state = state.ON) ∧
    (fsm.state = state.OFF → gpio_level ≠ 0 →
      (process_fsm (update_fsm_conditions fsm gpio_level) now).state = state.OFF) ∧
    (fsm.state = state.ON → gpio_level = 0 →
      (process_fsm (update_fsm_conditions fsm gpio_level) now).state = state.ON) := by
  have hc := step_state_cases fsm { gpio_level := gpio_level, now := now }
  have hstep : step fsm { gpio_level := gpio_level, now := now }
      = process_fsm (update_fsm_conditions fsm gpio_level) now := rfl
  rw [hstep] at hc
  refine ⟨hc, ?_, ?_, ?_, ?_, ?_⟩
  · rintro ⟨h1, h2⟩
    rw [h1, h2] at hc
    simp [successor] at hc
  · rintro ⟨h1, h2⟩
    rw [h1, h2] at hc
    simp [successor] at hc
  · rintro ⟨h1, h2⟩
    rw [h1, h2] at hc
    simp [successor] at hc
  · intro h1 hg
    obtain ⟨st, old, tg, c, d, ttt⟩ := fsm
    simp only at h1
    subst h1
    simp only [process_fsm, update_fsm_conditions, hg, if_false]
    split_ifs <;> simp_all
  · intro h1 hg
    obtain ⟨st, old, tg, c, d, ttt⟩ := fsm
    simp only at h1
    subst h1
    simp only [process_fsm, update_fsm_conditions, hg]
    split_ifs <;> simp_all

/-- Witness for C13: from OFF with GPIO high, and from ON with GPIO low, 20 s after the
last recorded time, the state does not change. -/
theorem step_follows_cycle_witness :
    (process_fsm (update_fsm_conditions local_fsm 1)
      { at_entry := 20000000, at_check := 20000000, at_update := 20000000 }).state
        = state.OFF ∧
    (process_fsm (update_fsm_conditions { local_fsm with state := state.ON,
                                                         old_state := state.ON } 0)
      { at_entry := 20000000, at_check := 20000000, at_update := 20000000 }).state
        = state.ON :=
  ⟨(step_follows_cycle local_fsm 1
      { at_entry := 20000000, at_check := 20000000, at_update := 20000000 }).2.2.2.2.1
      rfl (by decide),
   (step_follows_cycle { local_fsm with state := state.ON, old_state := state.ON } 0
      { at_entry := 20000000, at_check := 20000000, at_update := 20000000 }).2.2.2.2.2
      rfl rfl⟩

end Ex2

namespace Ex3

/-! ## Helper lemmas -/

theorem take_set_succ (x : Int) (l : List Int) :
    ∀ q : Nat, q < l.length → (l.set q x).take (q + 1) = l.take q ++ [x] := by
  induction l with
  | nil => intro q hq; simp at hq
  | cons a as ih =>
    intro q hq
    cases q with
    | zero => simp
    | succ q =>
      have := ih q (by simpa using hq)
      simp [List.set_cons_succ, List.take_succ_cons, this]

theorem getD_eq_getElem (vec : List Int) (i : Nat) (hi : i < vec.length) :
    vec.getD i 0 = vec[i] := by
  simp [List.getD, List.getElem?_eq_getElem hi]

/-- The test of line 68, `vec[i] % 2 == 0` with the truncating remainder of C, holds
exactly for the multiples of 2. -/
theorem tmod_two_eq_zero_iff (x : Int) : x.tmod 2 = 0 ↔ x % 2 = 0 := by
  rw [← Int.dvd_iff_tmod_eq_zero, Int.dvd_iff_emod_eq_zero]

theorem even_elements_cons_even (x : Int) (xs : List Int) (h : x.tmod 2 = 0) :
    even_elements (x :: xs) = x :: even_elements xs := by
  rw [tmod_two_eq_zero_iff] at h
  simp [even_elements, List.filter_cons, h]

theorem even_elements_cons_odd (x : Int) (xs : List Int) (h : ¬ x.tmod 2 = 0) :
    even_elements (x :: xs) = even_elements xs := by
  rw [tmod_two_eq_zero_iff] at h
  unfold even_elements
  rw [List.filter_cons, if_neg (by simpa using h)]

theorem MIN_le_left (a b : Int) : MIN a b ≤ a := by
  unfold MIN
  split_ifs <;> omega

theorem MIN_le_right (a b : Int) : MIN a b ≤ b := by
  unfold MIN
  split_ifs <;> omega

theorem MIN_cases (a b : Int) : MIN a b = a ∨ MIN a b = b := by
  unfold MIN
  split_ifs <;> simp

theorem MAX_ge_left (a b : Int) : a ≤ MAX a b := by
  unfold MAX
  split_ifs <;> omega

theorem MAX_ge_right (a b : Int) : b ≤ MAX a b := by
  unfold MAX
  split_ifs <;> omega

theorem MAX_cases (a b : Int) : MAX a b = a ∨ MAX a b = b := by
  unfold MAX
  split_ifs <;> simp

theorem func_loop_step (vec : List Int) (size fuel i : Nat) (rv : array_data)
    (vis : List Nat) (hi : i < size) :
    func_loop vec size (fuel + 1) i rv vis =
      if (vec.getD i 0).tmod 2 = 0 then
        if rv.even.qnt_elements < MAX_EVEN_ARRAY_SIZE then
          func_loop vec size fuel ((i + 1) % 65536)
            { process_statistic rv (vec.getD i 0) with
              even :=
                { array := rv.even.array.set rv.even.qnt_elements (vec.getD i 0)
                  qnt_elements := rv.even.qnt_elements + 1 } }
            (vis ++ [i])
        else
          some { goto_exit := true
                 return_value := { process_statistic rv (vec.getD i 0) with is_valid := 0 }
                 processed := vis ++ [i] }
      else
        func_loop vec size fuel ((i + 1) % 65536) (process_statistic rv (vec.getD i 0))
          (vis ++ [i]) := by
  rw [func_loop, if_pos hi]
  rfl

theorem func_loop_done (vec : List Int) (size fuel i : Nat) (rv : array_data)
    (vis : List Nat) (hi : ¬ i < size) :
    func_loop vec size (fuel + 1) i rv vis =
      some { goto_exit := false, return_value := rv, processed := vis } := by
  rw [func_loop, if_neg hi]

theorem min_summary_cons (r a x : Int) (xs : List Int)
    (h : r ≤ MIN a x ∧ (∀ y ∈ xs, r ≤ y) ∧ (r = MIN a x ∨ r ∈ xs)) :
    r ≤ a ∧ (∀ y ∈ x :: xs, r ≤ y) ∧ (r = a ∨ r ∈ x :: xs) := by
  have h1 := MIN_le_left a x
  have h2 := MIN_le_right a x
  refine ⟨by omega, ?_, ?_⟩
  · intro y hy
    rcases List.mem_cons.1 hy with e | e
    · rw [e]; omega
    · exact h.2.1 y e
  · rcases h.2.2 with e | e
    · rcases MIN_cases a x with e3 | e3
      · left; rw [e, e3]
      · right; rw [e, e3]; exact List.mem_cons_self _ _
    · right; exact List.mem_cons_of_mem _ e

theorem max_summary_cons (r a x : Int) (xs : List Int)
    (h : MAX a x ≤ r ∧ (∀ y ∈ xs, y ≤ r) ∧ (r = MAX a x ∨ r ∈ xs)) :
    a ≤ r ∧ (∀ y ∈ x :: xs, y ≤ r) ∧ (r = a ∨ r ∈ x :: xs) := by
  have h1 := MAX_ge_left a x
  have h2 := MAX_ge_right a x
  refine ⟨by omega, ?_, ?_⟩
  · intro y hy
    rcases List.mem_cons.1 hy with e | e
    · rw [e]; omega
    · exact h.2.1 y e
  · rcases h.2.2 with e | e
    · rcases MAX_cases a x with e3 | e3
      · left; rw [e, e3]
      · right; rw [e, e3]; exact List.mem_cons_self _ _
    · right; exact List.mem_cons_of_mem _ e

theorem func_loop_complete (vec : List Int) (hsize : vec.length ≤ 65535) (n : Nat) :
    ∀ (i : Nat) (rv : array_data) (vis : List Nat) (fuel : Nat),
      i + n = vec.length → n < fuel → rv.even.array.length = 100 →
      rv.even.qnt_elements + (even_elements (vec.drop i)).length ≤ 100 →
      ∃ r : array_data,
        func_loop vec vec.length fuel i rv vis =
          some { goto_exit := false, return_value := r,
                 processed := vis ++ List.range' i n } ∧
        r.is_valid = rv.is_valid ∧
        (r.raw_array.min ≤ rv.raw_array.min ∧ (∀ x ∈ vec.drop i, r.raw_array.min ≤ x) ∧
          (r.raw_array.min = rv.raw_array.min ∨ r.raw_array.min ∈ vec.drop i)) ∧
        (rv.raw_array.max ≤ r.raw_array.max ∧ (∀ x ∈ vec.drop i, x ≤ r.raw_array.max) ∧
          (r.raw_array.max = rv.raw_array.max ∨ r.raw_array.max ∈ vec.drop i)) ∧
        r.even.qnt_elements = rv.even.qnt_elements + (even_elements (vec.drop i)).length ∧
        r.even.array.take r.even.qnt_elements =
          rv.even.array.take rv.even.qnt_elements ++ even_elements (vec.drop i) ∧
        r.even.array.length = 100 := by
  induction n with
  | zero =>
    intro i rv vis fuel hin hfuel hlen _
    have hi : i = vec.length := by omega
    subst hi
    obtain ⟨f, rfl⟩ : ∃ f, fuel = f + 1 := ⟨fuel - 1, by omega⟩
    refine ⟨rv, ?_, rfl, ?_, ?_, ?_, ?_, hlen⟩
    · rw [func_loop_done _ _ _ _ _ _ (by omega)]
      simp
    · simp
    · simp
    · simp [even_elements]
    · simp [even_elements]
  | succ n ih =>
    intro i rv vis fuel hin hfuel hlen hq
    have hi : i < vec.length := by omega
    obtain ⟨f, rfl⟩ : ∃ f, fuel = f + 1 := ⟨fuel - 1, by omega⟩
    have hd : vec.drop i = vec[i] :: vec.drop (i + 1) := List.drop_eq_getElem_cons hi
    have hg := getD_eq_getElem vec i hi
    have hmod : (i + 1) % 65536 = i + 1 := by omega
    have hrange : vis ++ List.range' i (n + 1) = (vis ++ [i]) ++ List.range' (i + 1) n := by
      rw [List.range'_succ, List.append_assoc]
      rfl
    rw [func_loop_step vec vec.length f i rv vis hi, hg, hmod, hrange, hd]
    by_cases hev : vec[i].tmod 2 = 0
    · rw [if_pos hev]
      rw [hd, even_elements_cons_even _ _ hev] at hq
      simp only [List.length_cons] at hq
      have hlt : rv.even.qnt_elements < MAX_EVEN_ARRAY_SIZE := by
        unfold MAX_EVEN_ARRAY_SIZE
        omega
      rw [if_pos hlt]
      obtain ⟨r, hr, hv, hmin, hmax, hcnt, harr, hl⟩ := ih (i + 1)
        { process_statistic rv vec[i] with
          even :=
            { array := rv.even.array.set rv.even.qnt_elements vec[i]
              qnt_elements := rv.even.qnt_elements + 1 } }
        (vis ++ [i]) f (by omega) (by omega) (by simp [hlen]) (by simp only; omega)
      dsimp only [process_statistic] at hv hmin hmax hcnt harr
      refine ⟨r, hr, hv, min_summary_cons _ _ _ _ hmin, max_summary_cons _ _ _ _ hmax,
        ?_, ?_, hl⟩
      · rw [hcnt, even_elements_cons_even _ _ hev]
        simp only [List.length_cons]
        omega
      · rw [harr, even_elements_cons_even _ _ hev,
          take_set_succ _ _ _ (by omega), List.append_assoc]
        rfl
    · rw [if_neg hev]
      rw [hd, even_elements_cons_odd _ _ hev] at hq
      obtain ⟨r, hr, hv, hmin, hmax, hcnt, harr, hl⟩ := ih (i + 1)
        (process_statistic rv vec[i]) (vis ++ [i]) f (by omega) (by omega) hlen hq
      dsimp only [process_statistic] at hv hmin hmax hcnt harr
      refine ⟨r, hr, hv, min_summary_cons _ _ _ _ hmin, max_summary_cons _ _ _ _ hmax,
        ?_, ?_, hl⟩
      · rw [hcnt, even_elements_cons_odd _ _ hev]
      · rw [harr, even_elements_cons_odd _ _ hev]

theorem func_loop_overflow (vec : List Int) (hsize : vec.length ≤ 65535) (n : Nat) :
    ∀ (i : Nat) (rv : array_data) (vis : List Nat) (fuel : Nat),
      i + n = vec.length → n < fuel → rv.even.array.length = 100 →
      rv.even.qnt_elements ≤ 100 →
      100 < rv.even.qnt_elements + (even_elements (vec.drop i)).length →
      ∃ (r : array_data) (k : Nat), i ≤ k ∧ k < vec.length ∧
        func_loop vec vec.length fuel i rv vis =
          some { goto_exit := true, return_value := r,
                 processed := vis ++ List.range' i (k + 1 - i) } ∧
        r.is_valid = 0 ∧ r.even.qnt_elements = 100 ∧
        r.even.array = rv.even.array.take rv.even.qnt_elements ++
          (even_elements (vec.drop i)).take (100 - rv.even.qnt_elements) ∧
        (vec.getD k 0).tmod 2 = 0 ∧
        rv.even.qnt_elements + (even_elements ((vec.drop i).take (k - i))).length = 100 := by
  induction n with
  | zero =>
    intro i rv vis fuel hin _ _ hq hov
    have hi : i = vec.length := by omega
    subst hi
    simp [even_elements] at hov
    omega
  | succ n ih =>
    intro i rv vis fuel hin hfuel hlen hq hov
    have hi : i < vec.length := by omega
    obtain ⟨f, rfl⟩ : ∃ f, fuel = f + 1 := ⟨fuel - 1, by omega⟩
    have hd : vec.drop i = vec[i] :: vec.drop (i + 1) := List.drop_eq_getElem_cons hi
    have hg := getD_eq_getElem vec i hi
    have hmod : (i + 1) % 65536 = i + 1 := by omega
    rw [func_loop_step vec vec.length f i rv vis hi, hg, hmod, hd]
    by_cases hev : vec[i].tmod 2 = 0
    · rw [if_pos hev]
      rw [hd, even_elements_cons_even _ _ hev] at hov
      simp only [List.length_cons] at hov
      by_cases hlt : rv.even.qnt_elements < MAX_EVEN_ARRAY_SIZE
      · rw [if_pos hlt]
        have hlt2 : rv.even.qnt_elements < 100 := hlt
        obtain ⟨r, k, hik, hk, hr, hv, hcnt, harr, hkev, hkc⟩ := ih (i + 1)
          { process_statistic rv vec[i] with
            even :=
              { array := rv.even.array.set rv.even.qnt_elements vec[i]
                qnt_elements := rv.even.qnt_elements + 1 } }
          (vis ++ [i]) f (by omega) (by omega) (by simp [hlen]) (by simp only; omega)
          (by simp only; omega)
        dsimp only [process_statistic] at hv hcnt harr hkc
        have hsub : k + 1 - i = (k + 1 - (i + 1)) + 1 := by omega
        have hsub2 : k - i = (k - (i + 1)) + 1 := by omega
        have hsub3 : 100 - rv.even.qnt_elements = (100 - (rv.even.qnt_elements + 1)) + 1 := by
          omega
        refine ⟨r, k, by omega, hk, ?_, hv, hcnt, ?_, hkev, ?_⟩
        · have hrange : vis ++ List.range' i (k + 1 - i)
              = (vis ++ [i]) ++ List.range' (i + 1) (k + 1 - (i + 1)) := by
            rw [hsub, List.range'_succ, List.append_assoc]
            rfl
          rw [hrange]
          exact hr
        · rw [harr, even_elements_cons_even _ _ hev, hsub3, List.take_succ_cons,
            take_set_succ _ _ _ (by omega), List.append_assoc]
          rfl
        · rw [hsub2, List.take_succ_cons, even_elements_cons_even _ _ hev]
          simp only [List.length_cons]
          omega
      · rw [if_neg hlt]
        have hq100 : rv.even.qnt_elements = 100 := by
          unfold MAX_EVEN_ARRAY_SIZE at hlt
          omega
        refine ⟨{ process_statistic rv vec[i] with is_valid := 0 }, i, le_refl _, hi, ?_, rfl,
          hq100, ?_, by rw [hg]; exact hev, ?_⟩
        · have : i + 1 - i = 1 := by omega
          rw [this]
          rfl
        · simp only [process_statistic]
          rw [hq100, List.take_of_length_le (by omega)]
          simp
        · simp [even_elements, hq100]
    · rw [if_neg hev]
      rw [hd, even_elements_cons_odd _ _ hev] at hov
      obtain ⟨r, k, hik, hk, hr, hv, hcnt, harr, hkev, hkc⟩ := ih (i + 1)
        (process_statistic rv vec[i]) (vis ++ [i]) f (by omega) (by omega) hlen hq hov
      dsimp only [process_statistic] at hv hcnt harr hkc
      have hsub : k + 1 - i = (k + 1 - (i + 1)) + 1 := by omega
      have hsub2 : k - i = (k - (i + 1)) + 1 := by omega
      refine ⟨r, k, by omega, hk, ?_, hv, hcnt, ?_, hkev, ?_⟩
      · have hrange : vis ++ List.range' i (k + 1 - i)
            = (vis ++ [i]) ++ List.range' (i + 1) (k + 1 - (i + 1)) := by
          rw [hsub, List.range'_succ, List.append_assoc]
          rfl
        rw [hrange]
        exact hr
      · rw [harr, even_elements_cons_odd _ _ hev]
      · rw [hsub2, List.take_succ_cons, even_elements_cons_odd _ _ hev]
        exact hkc

theorem func_trace_some (v : List Int) (size fuel : Nat) (hs : size > 0) :
    func_trace (some v) size fuel =
      match func_loop v size fuel 0
          { return_value_zero with
            raw_array := { max := v.getD 0 0, min := v.getD 0 0, avr := 0 } } [] with
      | none => none
      | some r =>
        if r.goto_exit then
          some (r.return_value, r.processed)
        else
          some ({ r.return_value with
                  raw_array :=
                    { r.return_value.raw_array with
                      avr := r.return_value.raw_array.avr / size }
                  is_valid := 1 }, r.processed) := by
  unfold func_trace
  simp only [hs, if_true]

theorem func_trace_complete (vec : List Int) (h1 : 1 ≤ vec.length)
    (h2 : vec.length ≤ 65535) (hev : (even_elements vec).length ≤ 100) (fuel : Nat)
    (hf : vec.length < fuel) :
    ∃ r : array_data,
      func_trace (some vec) vec.length fuel = some (r, List.range vec.length) ∧
      r.is_valid = 1 ∧
      r.raw_array.min ∈ vec ∧ (∀ x ∈ vec, r.raw_array.min ≤ x) ∧
      r.raw_array.max ∈ vec ∧ (∀ x ∈ vec, x ≤ r.raw_array.max) ∧
      r.even.qnt_elements = (even_elements vec).length ∧
      r.even.array.take r.even.qnt_elements = even_elements vec ∧
      r.even.array.length = 100 := by
  obtain ⟨r, hr, _, hmin, hmax, hcnt, harr, hl⟩ := func_loop_complete vec h2 vec.length 0
    { return_value_zero with
      raw_array := { max := vec.getD 0 0, min := vec.getD 0 0, avr := 0 } } [] fuel
    (by omega) hf (by simp [return_value_zero, MAX_EVEN_ARRAY_SIZE])
    (by simpa [return_value_zero] using hev)
  have h0 : vec.getD 0 0 ∈ vec := by
    rw [getD_eq_getElem vec 0 (by omega)]
    exact List.getElem_mem _
  simp only [List.drop_zero, return_value_zero, Nat.zero_add, List.take_zero,
    List.nil_append] at hmin hmax hcnt harr
  refine ⟨{ r with
            raw_array := { r.raw_array with avr := r.raw_array.avr / vec.length }
            is_valid := 1 }, ?_, rfl, ?_, hmin.2.1, ?_, hmax.2.1, hcnt, harr, hl⟩
  · rw [func_trace_some vec vec.length fuel (by omega), hr]
    simp [List.range_eq_range']
  · rcases hmin.2.2 with h | h
    · simp only; rw [h]; exact h0
    · exact h
  · rcases hmax.2.2 with h | h
    · simp only; rw [h]; exact h0
    · exact h

theorem func_trace_overflow (vec : List Int) (h2 : vec.length ≤ 65535)
    (hev : 100 < (even_elements vec).length) (fuel : Nat) (hf : vec.length < fuel) :
    ∃ (r : array_data) (k : Nat), k < vec.length ∧
      func_trace (some vec) vec.length fuel = some (r, List.range (k + 1)) ∧
      r.is_valid = 0 ∧ r.even.qnt_elements = 100 ∧
      r.even.array = (even_elements vec).take 100 ∧
      (vec.getD k 0) % 2 = 0 ∧ (even_elements (vec.take k)).length = 100 := by
  have hpos : 0 < vec.length := by
    rcases Nat.eq_zero_or_pos vec.length with h | h
    · rw [List.length_eq_zero] at h
      rw [h] at hev
      simp [even_elements] at hev
    · exact h
  obtain ⟨r, k, _, hk, hr, hv, hcnt, harr, hkev, hkc⟩ := func_loop_overflow vec h2 vec.length 0
    { return_value_zero with
      raw_array := { max := vec.getD 0 0, min := vec.getD 0 0, avr := 0 } } [] fuel
    (by omega) hf (by simp [return_value_zero, MAX_EVEN_ARRAY_SIZE])
    (by simp [return_value_zero])
    (by simpa [return_value_zero] using hev)
  simp only [List.drop_zero, return_value_zero, Nat.zero_add, List.take_zero,
    List.nil_append, Nat.sub_zero] at hr harr hkc
  refine ⟨r, k, hk, ?_, hv, hcnt, harr, (tmod_two_eq_zero_iff _).1 hkev, hkc⟩
  rw [func_trace_some vec vec.length fuel (by omega)]
  simp only [return_value_zero]
  rw [hr]
  simp [List.range_eq_range']

theorem func_of_trace (vec : Option (List Int)) (size fuel : Nat) (r : array_data)
    (processed : List Nat) (h : func_trace vec size fuel = some (r, processed)) :
    func vec size fuel = some r := by
  unfold func
  rw [h]
  rfl

/-- With 65536 odd elements and `size` 65536 the `uint16_t` index wraps from 65535 to 0,
the condition `i < size` stays true and the loop never ends. -/
theorem func_loop_wraps (fuel : Nat) :
    ∀ (i : Nat) (rv : array_data) (vis : List Nat), i < 65536 →
      func_loop (List.replicate 65536 1) 65536 fuel i rv vis = none := by
  induction fuel with
  | zero => intro i rv vis _; rfl
  | succ f ih =>
    intro i rv vis hi
    have hg : (List.replicate 65536 (1 : Int)).getD i 0 = 1 := by
      rw [List.getD_eq_getElem?_getD, List.getElem?_replicate_of_lt hi]
      rfl
    have hodd : ¬ ((1 : Int).tmod 2 = 0) := by decide
    rw [func_loop_step _ _ _ _ _ _ hi, hg, if_neg hodd]
    exact ih _ _ _ (Nat.mod_lt _ (by decide))

theorem func_diverges_at_65536 (fuel : Nat) :
    func (some (List.replicate 65536 1)) 65536 fuel = none := by
  unfold func
  rw [func_trace_some _ _ _ (by decide), func_loop_wraps fuel 0 _ _ (by decide)]
  rfl

/-! ## Claims about `func` -/

/-- C14: for every non-null array of size between 1 and 65535 with at most 100 even
elements, `func` returns (its loop ends within `size + 1` evaluations of the condition,
and the same value results for every larger bound) a value whose `raw_array.min` is an
element of the array below or equal to every element, and whose `raw_array.max` is an
element of the array above or equal to every element. -/
theorem func_min_max (vec : List Int) (h1 : 1 ≤ vec.length) (h2 : vec.length ≤ 65535)
    (hev : (even_elements vec).length ≤ 100) (fuel : Nat) (hf : vec.length < fuel) :
    ∃ r : array_data, func (some vec) vec.length fuel = some r ∧
      r.raw_array.min ∈ vec ∧ (∀ x ∈ vec, r.raw_array.min ≤ x) ∧
      r.raw_array.max ∈ vec ∧ (∀ x ∈ vec, x ≤ r.raw_array.max) := by
  obtain ⟨r, hr, _, hmin1, hmin2, hmax1, hmax2, _⟩ :=
    func_trace_complete vec h1 h2 hev fuel hf
  exact ⟨r, func_of_trace _ _ _ _ _ hr, hmin1, hmin2, hmax1, hmax2⟩

/-- Witness for C14: the array of `main`, -2, 2, -3, 3, for which `func` returns the
minimum -3 and the maximum 3. -/
theorem func_min_max_witness :
    (∃ r : array_data, func (some [-2, 2, -3, 3]) ([-2, 2, -3, 3] : List Int).length 5 = some r ∧
      r.raw_array.min ∈ ([-2, 2, -3, 3] : List Int) ∧
      (∀ x ∈ ([-2, 2, -3, 3] : List Int), r.raw_array.min ≤ x) ∧
      r.raw_array.max ∈ ([-2, 2, -3, 3] : List Int) ∧
      (∀ x ∈ ([-2, 2, -3, 3] : List Int), x ≤ r.raw_array.max)) ∧
    (func (some [-2, 2, -3, 3]) 4 5).map (fun r => (r.raw_array.min, r.raw_array.max))
      = some (-3, 3) :=
  ⟨func_min_max [-2, 2, -3, 3] (by decide) (by decide) (by decide) 5 (by decide),
   by decide⟩

/-- C15: for every non-null array of size between 1 and 65535 with at most 100 even
elements, `func` returns a value whose `even.qnt_elements` is the number of even elements
of the array (negative ones included) and whose `even.array[0 .. qnt_elements-1]` is the
list of the even elements in their original order. -/
theorem func_even_elements (vec : List Int) (h1 : 1 ≤ vec.length) (h2 : vec.length ≤ 65535)
    (hev : (even_elements vec).length ≤ 100) (fuel : Nat) (hf : vec.length < fuel) :
    ∃ r : array_data, func (some vec) vec.length fuel = some r ∧
      r.even.qnt_elements = (even_elements vec).length ∧
      r.even.array.take r.even.qnt_elements = even_elements vec := by
  obtain ⟨r, hr, _, _, _, _, _, hcnt, harr, _⟩ :=
    func_trace_complete vec h1 h2 hev fuel hf
  exact ⟨r, func_of_trace _ _ _ _ _ hr, hcnt, harr⟩

/-- Witness for C15: the array of `main`, -2, 2, -3, 3, for which `func` returns two even
elements, -2 and 2. -/
theorem func_even_elements_witness :
    (∃ r : array_data, func (some [-2, 2, -3, 3]) ([-2, 2, -3, 3] : List Int).length 5 = some r ∧
      r.even.qnt_elements = (even_elements [-2, 2, -3, 3]).length ∧
      r.even.array.take r.even.qnt_elements = even_elements [-2, 2, -3, 3]) ∧
    even_elements [-2, 2, -3, 3] = [-2, 2] ∧
    (func (some [-2, 2, -3, 3]) 4 5).map
        (fun r => (r.even.qnt_elements, r.even.array.take r.even.qnt_elements))
      = some (2, [-2, 2]) :=
  ⟨func_even_elements [-2, 2, -3, 3] (by decide) (by decide) (by decide) 5 (by decide),
   by decide, by decide⟩

/-- C16: for every input of size at most 65535, `func` returns a value whose `is_valid`
is 1 exactly when the array is non-null, non-empty and has at most 100 even elements; for
a null or empty input every field of the value returned is zero (`is_valid`, `max`, `min`,
`avr`, `qnt_elements` and each of the 100 elements of `even.array`); and when the array
has more than 100 even elements the value returned has `is_valid` 0, `even.qnt_elements`
100 and `even.array` holding the first 100 even elements. -/
theorem func_is_valid (vec : Option (List Int)) (size fuel : Nat)
    (hlen : ∀ v, vec = some v → v.length = size) (hsize : size ≤ 65535)
    (hf : size < fuel) :
    ∃ r : array_data, func vec size fuel = some r ∧
      (r.is_valid = 1 ↔
        ∃ v, vec = some v ∧ v ≠ [] ∧ (even_elements v).length ≤ 100) ∧
      ((vec = none ∨ size = 0) →
        r.is_valid = 0 ∧ r.raw_array.max = 0 ∧ r.raw_array.min = 0 ∧ r.raw_array.avr = 0 ∧
        r.even.qnt_elements = 0 ∧ r.even.array = List.replicate 100 0) ∧
      (∀ v, vec = some v → 100 < (even_elements v).length →
        r.is_valid = 0 ∧ r.even.qnt_elements = 100 ∧
        r.even.array = (even_elements v).take 100) := by
  cases vec with
  | none =>
    refine ⟨return_value_zero, rfl, ?_, fun _ => ⟨rfl, rfl, rfl, rfl, rfl, rfl⟩, ?_⟩
    · constructor
      · intro h
        exact absurd h (by decide)
      · rintro ⟨v, hv, _⟩
        cases hv
    · intro v hv
      cases hv
  | some v =>
    have hl := hlen v rfl
    subst hl
    by_cases hnil : v = []
    · subst hnil
      refine ⟨return_value_zero, rfl, ?_, fun _ => ⟨rfl, rfl, rfl, rfl, rfl, rfl⟩, ?_⟩
      · constructor
        · intro h
          exact absurd h (by decide)
        · rintro ⟨w, hw, hne, _⟩
          cases hw
          exact absurd rfl hne
      · intro w hw hov
        cases hw
        simp [even_elements] at hov
    · have hpos : 1 ≤ v.length := by
        rcases Nat.eq_zero_or_pos v.length with h | h
        · exact absurd (List.length_eq_zero.1 h) hnil
        · exact h
      by_cases hev : (even_elements v).length ≤ 100
      · obtain ⟨r, hr, hvalid, _⟩ := func_trace_complete v hpos hsize hev fuel hf
        refine ⟨r, func_of_trace _ _ _ _ _ hr, ?_, ?_, ?_⟩
        · constructor
          · intro _
            exact ⟨v, rfl, hnil, hev⟩
          · intro _
            exact hvalid
        · rintro (h | h)
          · cases h
          · omega
        · intro w hw hov
          cases hw
          omega
      · obtain ⟨r, k, _, hr, hvalid, hcnt, harr, _⟩ :=
          func_trace_overflow v hsize (by omega) fuel hf
        refine ⟨r, func_of_trace _ _ _ _ _ hr, ?_, ?_, ?_⟩
        · constructor
          · intro h
            rw [hvalid] at h
            exact absurd h (by decide)
          · rintro ⟨w, hw, _, hle⟩
            cases hw
            exact absurd hle hev
        · rintro (h | h)
          · cases h
          · omega
        · intro w hw _
          cases hw
          exact ⟨hvalid, hcnt, harr⟩

/-- Witness for C16: the array of `main`, -2, 2, -3, 3, is non-null, non-empty and has two
even elements, and `func` returns `is_valid` 1 for it; for a null pointer and for an
empty array every field of the value `func` returns is zero; for 101 zeros followed by a
1 it returns `is_valid` 0 with 100 even elements stored. -/
theorem func_is_valid_witness :
    (∃ r : array_data, func (some [-2, 2, -3, 3]) 4 5 = some r ∧ r.is_valid = 1) ∧
    (∃ r : array_data, func none 7 8 = some r ∧
      r.is_valid = 0 ∧ r.raw_array.max = 0 ∧ r.raw_array.min = 0 ∧ r.raw_array.avr = 0 ∧
      r.even.qnt_elements = 0 ∧ r.even.array = List.replicate 100 0) ∧
    (∃ r : array_data, func (some []) 0 1 = some r ∧
      r.is_valid = 0 ∧ r.raw_array.max = 0 ∧ r.raw_array.min = 0 ∧ r.raw_array.avr = 0 ∧
      r.even.qnt_elements = 0 ∧ r.even.array = List.replicate 100 0) ∧
    (∃ r : array_data, func (some (List.replicate 101 0 ++ [1])) 102 103 = some r ∧
      r.is_valid = 0 ∧ r.even.qnt_elements = 100 ∧
      r.even.array = (even_elements (List.replicate 101 0 ++ [1])).take 100) :=
  ⟨(func_is_valid (some [-2, 2, -3, 3]) 4 5
      (fun v hv => by cases hv; rfl) (by decide) (by decide)).elim
      (fun r h => ⟨r, h.1, h.2.1.2 ⟨[-2, 2, -3, 3], rfl, by decide, by decide⟩⟩),
   (func_is_valid none 7 8 (fun v hv => by cases hv) (by decide) (by decide)).elim
      (fun r h => ⟨r, h.1, h.2.2.1 (Or.inl rfl)⟩),
   (func_is_valid (some []) 0 1 (fun v hv => by cases hv; rfl) (by decide) (by decide)).elim
      (fun r h => ⟨r, h.1, h.2.2.1 (Or.inr rfl)⟩),
   (func_is_valid (some (List.replicate 101 0 ++ [1])) 102 103
      (fun v hv => by cases hv; rfl) (by decide) (by decide)).elim
      (fun r h => ⟨r, h.1, h.2.2.2 _ rfl (by decide)⟩)⟩

set_option maxRecDepth 100000 in
/-- C17 (counterexample): for the array of 101 zeros followed by a 1, of size 102, the
loop ends by `goto exit` at the 101st even element: the indices passed to
`process_statistic` are 0 to 100, and the element at index 101 is never processed. And
for 65536 odd elements with size 65536 the loop does not end, whatever the bound on the
number of iterations. -/
theorem func_stops_at_101st_even :
    (func_trace (some (List.replicate 101 0 ++ [1])) 102 103).map Prod.snd
      = some (List.range 101) ∧
    (List.range 101).count 101 = 0 ∧
    (∀ fuel : Nat, func (some (List.replicate 65536 1)) 65536 fuel = none) :=
  ⟨by decide, by decide, func_diverges_at_65536⟩

/-- C17 (amended): for every non-null array of size at most 65535, the loop of `func`
ends (within `size + 1` evaluations of its condition); when the array has at most 100 even
elements the indices passed to `process_statistic` are 0 to `size - 1` in order, each
once; otherwise they are 0 to `k` in order, each once, where `vec[k]` is the 101st even
element. -/
theorem func_processes_each_once (vec : List Int) (hsize : vec.length ≤ 65535)
    (fuel : Nat) (hf : vec.length < fuel) :
    ∃ (r : array_data) (processed : List Nat),
      func_trace (some vec) vec.length fuel = some (r, processed) ∧
      ((even_elements vec).length ≤ 100 → processed = List.range vec.length) ∧
      (100 < (even_elements vec).length →
        ∃ k, k < vec.length ∧ processed = List.range (k + 1) ∧
          (vec.getD k 0) % 2 = 0 ∧ (even_elements (vec.take k)).length = 100) := by
  by_cases hev : (even_elements vec).length ≤ 100
  · by_cases hnil : vec = []
    · subst hnil
      exact ⟨return_value_zero, [], rfl, fun _ => rfl, fun h => absurd h (by omega)⟩
    · have hpos : 1 ≤ vec.length := by
        rcases Nat.eq_zero_or_pos vec.length with h | h
        · exact absurd (List.length_eq_zero.1 h) hnil
        · exact h
      obtain ⟨r, hr, _⟩ := func_trace_complete vec hpos hsize hev fuel hf
      exact ⟨r, _, hr, fun _ => rfl, fun h => absurd h (by omega)⟩
  · obtain ⟨r, k, hk, hr, _, _, _, hkev, hkc⟩ :=
      func_trace_overflow vec hsize (by omega) fuel hf
    exact ⟨r, _, hr, fun h => absurd h hev, fun _ => ⟨k, hk, rfl, hkev, hkc⟩⟩

/-- Witness for C17 (amended): the array of `main`, of size 4, with `fuel` 5. -/
theorem func_processes_each_once_witness :
    ∃ (r : array_data) (processed : List Nat),
      func_trace (some [-2, 2, -3, 3]) ([-2, 2, -3, 3] : List Int).length 5
        = some (r, processed) ∧
      ((even_elements [-2, 2, -3, 3]).length ≤ 100 →
        processed = List.range ([-2, 2, -3, 3] : List Int).length) ∧
      (100 < (even_elements [-2, 2, -3, 3]).length →
        ∃ k, k < ([-2, 2, -3, 3] : List Int).length ∧ processed = List.range (k + 1) ∧
          (([-2, 2, -3, 3] : List Int).getD k 0) % 2 = 0 ∧
          (even_elements (([-2, 2, -3, 3] : List Int).take k)).length = 100) :=
  func_processes_each_once [-2, 2, -3, 3] (by decide) 5 (by decide)

end Ex3
